import Mathlib

/-!
Verification development for the core parsing, templating and patch
generation components of the sqlfluff repository.

The Python source under scrutiny is shallowly embedded: pure functions
become Lean functions, Python `int` becomes `Int`, Python exceptions become
`Except PyErr`, the per-parse mutable `ParseContext` becomes explicit state
passing.  Grammar "matchables" (dynamic dispatch over heterogeneous matcher
objects) are embedded as records carrying a match function.

Collaborator code that is not part of the sources under scrutiny
(`MatchResult`, the shared match algorithms, position markers, the
`TemplatedFile` lookup API, string helpers) is modelled from the
specification; each such definition carries a doc comment saying so.
-/

namespace Sqlfluff

/-- A Python `slice(start, stop)` value (step is always 1 in the embedded
code).  Python ints are embedded as `Int`. -/
structure PySlice where
  start : Int
  stop : Int
deriving DecidableEq, Repr

/-- Python `range(a, b)` (ascending, step 1) as a list of `Int`. -/
def intRange (a b : Int) : List Int :=
  (List.range (b - a).toNat).map (fun n => a + n)

/-- Python `range(a, b, -1)` (descending, step -1) as a list of `Int`. -/
def intRangeDesc (a b : Int) : List Int :=
  (List.range (a - b).toNat).map (fun n => a - n)

/-- Python string slicing `s[sl]` with the usual semantics: negative
indices count from the end, out-of-range bounds are clamped, and an empty
string results when `start >= stop` after normalisation. -/
def pyStrSlice (s : String) (sl : PySlice) : String :=
  let n : Int := s.length
  let norm : Int → Int := fun i => if i < 0 then i + n else i
  let a := max 0 (min n (norm sl.start))
  let b := max 0 (min n (norm sl.stop))
  if a < b then ((s.toList.drop a.toNat).take (b - a).toNat).asString else ""

/-- Python string slicing `s[idx:]` (from `idx` to the end). -/
def pyStrSliceFrom (s : String) (idx : Int) : String :=
  pyStrSlice s ⟨idx, s.length⟩

/-- The exceptions raised by the embedded code. -/
inductive PyErr where
  | assertionError (msg : String)
  | unboundLocalError (nm : String)
  | attributeError (msg : String)
  | indexError
  | valueError (msg : String)
  | sqlParseError (msg : String)
  | runtimeError (msg : String)
deriving DecidableEq, Repr

/-- A lexed raw segment (token), the input of parsing.  The spec supplies
these from the lexer: raw text plus an is-code classification; the
`seg_type`/`block_type` fields carry the type-tag information that
`_flush_metas` inspects (`is_type("placeholder")` and `block_type`). -/
structure Segment where
  raw : String
  is_code : Bool
  seg_type : String
  block_type : String
deriving DecidableEq, Repr

instance : Inhabited Segment := ⟨⟨"", false, "", ""⟩⟩

/-- Python list indexing `l[i]` with negative-index support; out-of-range
reads return the default element (the embedded code only indexes in
bounds on the traced paths; the checked variant is `pyGetSegE`). -/
def pyGetSeg (l : List Segment) (i : Int) : Segment :=
  let j := if i < 0 then i + l.length else i
  l.getD j.toNat default

/-- Python list indexing `l[i]` raising `IndexError` when out of range
(negative indices count from the end). -/
def pyGetSegE (l : List Segment) (i : Int) : Except PyErr Segment :=
  let j := if i < 0 then i + l.length else i
  if 0 ≤ j ∧ j < l.length then .ok (l.getD j.toNat default) else .error .indexError

/-- Python `l[a:b]` on a segment list (clamped, step 1). -/
def pySegSlice (l : List Segment) (sl : PySlice) : List Segment :=
  let n : Int := l.length
  let norm : Int → Int := fun i => if i < 0 then i + n else i
  let a := max 0 (min n (norm sl.start))
  let b := max 0 (min n (norm sl.stop))
  (l.drop a.toNat).take (b - a).toNat

/-- The final value of the Python loop variable in
`for i in vals: if p(i): break` — the first value satisfying `p`, else the
last value of the (non-empty) iteration, else `dflt` when `vals` is empty.
The predicate may raise (list indexing inside the loop body). -/
def pyForBreakE (vals : List Int) (p : Int → Except PyErr Bool) (dflt : Int) :
    Except PyErr Int :=
  match vals with
  | [] => .ok dflt
  | i :: rest => do
    if (← p i) then .ok i else pyForBreakE rest p i

/-- Pure version of `pyForBreakE` for loops whose body cannot raise. -/
def pyForBreak (vals : List Int) (p : Int → Bool) (dflt : Int) : Int :=
  match vals with
  | [] => dflt
  | i :: rest => if p i then i else pyForBreak rest p i

/-- Meta segment class (e.g. `Indent`/`Dedent`): a zero-width structural
marker type with an indent value, per the spec's data model. -/
structure MetaType where
  name : String
  indent_val : Int
deriving DecidableEq, Repr

/-- Modelled from the spec: `MatchResult`, the uniform output of every
grammar match attempt (`match_result.py` is not among the sources):
a matched sub-slice, optional wrapping segment class, an optional
"expected" message for unparsable segments, ordered `insert_segments`
(insertion-index, meta-type) pairs and nested `child_matches`. -/
inductive MatchResult where
  | mk (matched_slice : PySlice) (matched_class : Option String)
      (expected : Option String) (insert_segments : List (Int × MetaType))
      (child_matches : List MatchResult)

def MatchResult.matched_slice : MatchResult → PySlice
  | .mk s _ _ _ _ => s

def MatchResult.matched_class : MatchResult → Option String
  | .mk _ c _ _ _ => c

def MatchResult.expected : MatchResult → Option String
  | .mk _ _ e _ _ => e

def MatchResult.insert_segments : MatchResult → List (Int × MetaType)
  | .mk _ _ _ i _ => i

def MatchResult.child_matches : MatchResult → List MatchResult
  | .mk _ _ _ _ c => c

/-- Modelled from the spec: `MatchResult.empty_at(idx)`, the typed
"no match" value at a given index. -/
def MatchResult.empty_at (idx : Int) : MatchResult :=
  .mk ⟨idx, idx⟩ none none [] []

/-- Modelled from the spec: truthiness of a `MatchResult` — a non-empty
matched slice OR non-empty child matches / insert segments (a zero-width
but meaningful match). -/
def MatchResult.truthy (m : MatchResult) : Bool :=
  (m.matched_slice.start < m.matched_slice.stop) ||
    !m.insert_segments.isEmpty || !m.child_matches.isEmpty

/-- Modelled from the spec: wrapping a match in an outer segment class
(used for unparsable wrapping); a falsy match is returned unchanged. -/
def MatchResult.wrap (m : MatchResult) (cls : String) (expected : Option String) :
    MatchResult :=
  if ¬ m.truthy then m
  else .mk m.matched_slice (some cls) expected [] [m]

/-- Modelled from the spec: prepending a child match to an existing match,
extending the matched slice to cover it (used by `Bracketed.match` for the
gap between matched content and the closing bracket). -/
def MatchResult.prepend (m other : MatchResult) : MatchResult :=
  if ¬ other.truthy then m
  else .mk ⟨other.matched_slice.start, m.matched_slice.stop⟩ m.matched_class
    m.expected m.insert_segments (other :: m.child_matches)

/-! ### NonCodeMatcher (`core/parser/grammar/noncode.py`) -/

/-- Embedding of `NonCodeMatcher.match`.  The Python body is

```
matched_idx = idx
for matched_idx in range(idx, len(segments)):
    if not segments[matched_idx].is_code:
        break
if matched_idx > idx:
    return MatchResult(matched_slice=slice(matched_idx, idx))
return MatchResult.empty_at(idx + 1)
```

including the Python semantics that the loop variable keeps its last value
when the loop exhausts without `break`. -/
def nonCodeMatch (segments : List Segment) (idx : Int) : MatchResult :=
  let matched_idx :=
    pyForBreak (intRange idx segments.length)
      (fun i => !(pyGetSeg segments i).is_code) idx
  if matched_idx > idx then
    .mk ⟨matched_idx, idx⟩ none none [] []
  else
    MatchResult.empty_at (idx + 1)

/-! ### ParseContext (`core/parser/context.py`) -/

/-- The stack-scoped state of `ParseContext` that `deeper_match`
manipulates: the terminator tuple, the match-name stack, the current match
segment name, the match depth and the progress-tracking flag.  The
matcher type `M` is abstract (Python compares terminators with `==`,
embedded via `BEq`). -/
structure PCtxState (M : Type) where
  terminators : List M
  match_stack : List String
  match_segment : String
  match_depth : Int
  track_progress : Bool
deriving DecidableEq, Repr

/-- Embedding of `ParseContext._set_terminators`.  Returns the
`(appended-count, saved-terminators)` pair and the updated state.  Python
truthiness of the tuples/lists is nonemptiness. -/
def setTerminators {M : Type} [BEq M] (ctx : PCtxState M)
    (clear_terminators : Bool) (push_terminators : Option (List M)) :
    (Nat × List M) × PCtxState M :=
  let _terminators := ctx.terminators
  if clear_terminators && !ctx.terminators.isEmpty then
    let push := push_terminators.getD []
    ((0, _terminators), { ctx with terminators := if push.isEmpty then [] else push })
  else if !(push_terminators.getD []).isEmpty then
    let step : (Nat × List M) → M → (Nat × List M) := fun acc t =>
      if acc.2.contains t then acc else (acc.1 + 1, acc.2 ++ [t])
    let r := (push_terminators.getD []).foldl step (0, ctx.terminators)
    ((r.1, _terminators), { ctx with terminators := r.2 })
  else
    ((0, _terminators), ctx)

/-- Embedding of `ParseContext._reset_terminators` (`appended` is truthy
iff non-zero; `self.terminators[:-appended]` trims the appended tail). -/
def resetTerminators {M : Type} (ctx : PCtxState M) (appended : Nat)
    (terminators : List M) (clear_terminators : Bool) : PCtxState M :=
  if clear_terminators then { ctx with terminators := terminators }
  else if appended ≠ 0 then
    { ctx with terminators := ctx.terminators.take (ctx.terminators.length - appended) }
  else ctx

/-- The values `deeper_match` stashes before `yield` and consumes in its
`finally` block. -/
structure DeeperSaved (M : Type) where
  appended : Nat
  terminators : List M
  track_flag : Bool
deriving Repr

/-- Embedding of the part of `ParseContext.deeper_match` that runs before
`yield`: push the name, bump the depth, and call
`self._set_terminators(not clear_terminators, push_terminators)` — the
negation is in the source.  (`track_progress=False` asserts, a path the
embedded callers never take.) -/
def deeperMatchEnter {M : Type} [BEq M] (ctx : PCtxState M) (name : String)
    (clear_terminators : Bool) (push_terminators : Option (List M))
    (track_progress : Option Bool) : PCtxState M × DeeperSaved M :=
  let ctx := { ctx with
    match_stack := ctx.match_stack ++ [ctx.match_segment]
    match_segment := name
    match_depth := ctx.match_depth + 2 }
  let r := setTerminators ctx (!clear_terminators) push_terminators
  let ctx := r.2
  let tflag := !ctx.track_progress
  let ctx := if track_progress = some true then { ctx with track_progress := true } else ctx
  (ctx, ⟨r.1.1, r.1.2, tflag⟩)

/-- Embedding of the `finally` block of `ParseContext.deeper_match`:
`self._reset_terminators(_append, _terms, clear_terminators=not
clear_terminators)` (negation in the source), pop the depth, name and
progress flag.  This runs on every scope exit, normal or exceptional. -/
def deeperMatchExit {M : Type} (ctx : PCtxState M) (saved : DeeperSaved M)
    (clear_terminators : Bool) : PCtxState M :=
  let ctx := resetTerminators ctx saved.appended saved.terminators (!clear_terminators)
  let ctx := { ctx with match_depth := ctx.match_depth - 2 }
  let ctx :=
    match ctx.match_stack.getLast? with
    | some s => { ctx with match_segment := s, match_stack := ctx.match_stack.dropLast }
    | none => ctx
  { ctx with track_progress := !saved.track_flag }

/-! ### Matchables and grammar context -/

/-- A grammar matchable, embedding the dynamic dispatch of
`match(segments, idx, parse_context) -> MatchResult`.  `id` stands in for
Python object identity/equality (terminator dedup compares with `==`);
the context argument is omitted from `matchFn` because in this source
`deeper_match` yields `None`, so the context object reaching a nested
`match` call carries no usable state. -/
structure Matcher where
  id : Nat
  optional : Bool
  matchFn : List Segment → Int → MatchResult

instance : BEq Matcher := ⟨fun a b => a.id == b.id⟩

/-- The grammar-facing parse context: the `ParseContext` state with
matchables as terminators. -/
abbrev GCtx := PCtxState Matcher

/-- The `NonCodeMatcher()` instance used by `Delimited.match` when gaps
are disallowed (a fresh object; `id` is irrelevant to the traced paths). -/
def nonCodeMatcherM : Matcher := ⟨1000, false, nonCodeMatch⟩

/-! ### Delimited (`core/parser/grammar/delimited.py`) -/

/-- A `Delimited` grammar instance: content element options, the
delimiter, and the constructor flags used by `match`. -/
structure DelimGrammar where
  elements : List Matcher
  delimiter : Matcher
  allow_trailing : Bool
  allow_gaps : Bool
  min_delimiters : Nat
  terminators : List Matcher

/-- Embedding of `Delimited.match`.  The body initialises its locals
(`delimiters`, `seeking_delimiter`, `max_idx`, `working_idx`,
`working_match`, `delimiter_matchers`, `terminator_matchers`), enters
`while True:` and — with `seeking_delimiter` still `False` — selects
`elements = self._elements`, then immediately evaluates
`if len(seg_buff) > 0:`.  `seg_buff` is a local of the function (it is
assigned further down the loop body) that has not been assigned on any
path reaching this read, so every call raises `UnboundLocalError`. -/
def delimitedMatch (g : DelimGrammar) (segments : List Segment) (idx : Int)
    (parse_context : GCtx) : Except PyErr MatchResult :=
  let _delimiters : Nat := 0
  let seeking_delimiter : Bool := false
  let _max_idx : Int := segments.length
  let _working_idx : Int := idx
  let _working_match : MatchResult := MatchResult.empty_at idx
  let delimiter_matchers : List Matcher := [g.delimiter]
  let terminator_matchers : List Matcher :=
    g.terminators ++ parse_context.terminators.filter
      (fun t => !(delimiter_matchers.contains t))
  let _terminator_matchers : List Matcher :=
    if !g.allow_gaps then terminator_matchers ++ [nonCodeMatcherM]
    else terminator_matchers
  -- while True:  (first iteration)
  let _elements : List Matcher :=
    if seeking_delimiter then delimiter_matchers else g.elements
  -- `if len(seg_buff) > 0:` — `seg_buff` read before assignment.
  .error (.unboundLocalError "seg_buff")

/-! ### Concrete inputs used in the evaluation theorems -/

/-- A simple raw-text matcher: matches exactly one segment whose raw text
equals `s` (the concrete stand-in for keyword/symbol matchers). -/
def rawMatcher (i : Nat) (s : String) : Matcher :=
  ⟨i, false, fun segs idx =>
    if 0 ≤ idx ∧ idx < segs.length ∧ (pyGetSeg segs idx).raw = s then
      .mk ⟨idx, idx + 1⟩ none none [] []
    else
      MatchResult.empty_at idx⟩

/-- A whitespace token. -/
def wsSeg : Segment := ⟨" ", false, "whitespace", ""⟩

/-- A keyword-ish code token. -/
def codeSeg (s : String) : Segment := ⟨s, true, "word", ""⟩

/-- A base context state mirroring a freshly initialised `ParseContext`
(no terminators pushed yet on the path under test). -/
def baseCtx : GCtx := ⟨[], ["initial"], "RootFile", 1, false⟩

/-! ## C10 — NonCodeMatcher.match -/

/-- C10: the claim says that when a non-code segment starts at `idx`,
`NonCodeMatcher.match` returns a match whose `matched_slice` is
`slice(idx, j)` with `j` the first code index after the run.  On the
single-segment non-code input at index 0 the code instead returns an
*empty* match located at index 1 (the loop condition is inverted, the
produced slice is reversed, and the empty result is positioned at
`idx + 1` instead of `idx`), refuting the claim. -/
theorem nonCodeMatch_c10_eval :
    nonCodeMatch [wsSeg] 0 = MatchResult.empty_at 1 ∧
      (MatchResult.empty_at 1).matched_slice ≠ PySlice.mk 0 1 ∧
      (MatchResult.empty_at 1).truthy = false := by
  refine ⟨rfl, by decide, rfl⟩

/-! ## C7 — ParseContext.deeper_match -/

/-- C7: the claim says `deeper_match` with `clear_terminators=True`
replaces the active terminator set with exactly the pushed terminators,
and with `clear_terminators=False` appends the ones not already present.
The source passes `not clear_terminators` into `_set_terminators`, so the
two behaviours are swapped: starting from terminator set `[1]`, a scope
entered with `clear_terminators=True` and push `[2]` sees `[1, 2]`
(appended, not replaced), and one entered with `clear_terminators=False`
and push `[2]` sees `[2]` (replaced, not appended). -/
theorem deeperMatch_c7_eval :
    (deeperMatchEnter (M := Nat) ⟨[1], ["initial"], "RootFile", 1, false⟩
        "Bracketed" true (some [2]) none).1.terminators = [1, 2] ∧
      ([1, 2] : List Nat) ≠ [2] ∧
      (deeperMatchEnter (M := Nat) ⟨[1], ["initial"], "RootFile", 1, false⟩
        "Sequence" false (some [2]) none).1.terminators = [2] ∧
      ([2] : List Nat) ≠ [1, 2] := by
  refine ⟨rfl, by decide, rfl, by decide⟩

/-! ## C4 — Delimited.match -/

/-- C4: the claim says `Delimited.match` with `min_delimiters = m` returns
an empty match exactly when fewer than `m` delimiters match, and in
particular that with `min_delimiters = 1` it matches `a , b`.  The code
never gets that far: every call reads the unassigned local `seg_buff` and
raises `UnboundLocalError`, for every grammar, input and index. -/
theorem delimitedMatch_c4_eval :
    ∀ (g : DelimGrammar) (segments : List Segment) (idx : Int) (ctx : GCtx),
      delimitedMatch g segments idx ctx = .error (.unboundLocalError "seg_buff") :=
  fun _ _ _ _ => rfl

/-! ### Python templater slicing (`core/templaters/python.py`) -/

/-- The `\x7b` character (Python template field / escape opener). -/
def lbrace : Char := '\x7b'

/-- The `\x7d` character (Python template field / escape closer). -/
def rbrace : Char := '\x7d'

/-- `\x7b` as a one-character string. -/
def lbraceStr : String := "\x7b"

/-- `\x7d` as a one-character string. -/
def rbraceStr : String := "\x7d"

/-- A `RawFileSlice` per the spec's data model: raw text, a slice-type tag
and the source start offset (`templaters/base.py` is not among the
sources). -/
structure RawFileSlice where
  raw : String
  slice_type : String
  source_idx : Int
deriving DecidableEq, Repr

/-- Modelled from the spec: the `findall` string helper used by
`_substring_occurrences` ("Find every occurrence of the given
substrings"): the start offsets of the non-overlapping left-to-right
occurrences of the needle (the callers only pass one-character needles,
for which overlap is moot).  `skip` counts positions still covered by the
previous occurrence, making the recursion structural. -/
def strFindallAux (needle : List Char) : List Char → Int → Nat → List Int
  | [], _, _ => []
  | c :: rest, pos, skip =>
    match skip with
    | k + 1 => strFindallAux needle rest (pos + 1) k
    | 0 =>
      if needle.isPrefixOf (c :: rest) then
        pos :: strFindallAux needle rest (pos + 1) (needle.length - 1)
      else
        strFindallAux needle rest (pos + 1) 0

/-- Occurrence offsets of `needle` in `s` (see `strFindallAux`; the empty
needle yields nothing, as in the source helper). -/
def strFindall (needle s : String) : List Int :=
  if needle.toList.isEmpty then [] else strFindallAux needle.toList s.toList 0 0

/-- Embedding of `PythonTemplater._substring_occurrences`: a dict (in key
insertion order) from each substring to its occurrence offsets. -/
def substringOccurrences (in_str : String) (substrings : List String) :
    List (String × List Int) :=
  substrings.map (fun sub => (sub, strFindall sub in_str))

/-- The sort key of `_sorted_occurrence_tuples`: first by position, then
lexically by the raw string. -/
def occLE (a b : String × Int) : Prop :=
  a.2 < b.2 ∨ (a.2 = b.2 ∧ a.1 ≤ b.1)

instance : DecidableRel occLE := fun a b => by
  unfold occLE
  infer_instance

/-- Embedding of `PythonTemplater._sorted_occurrence_tuples` (Python's
`sorted` is a stable sort; `insertionSort` with a total `≤` key relation
is the stable sort of the same list). -/
def sortedOccurrenceTuples (occ : List (String × List Int)) : List (String × Int) :=
  List.insertionSort occLE (occ.flatMap (fun p => p.2.map (fun i => (p.1, i))))

/-- One iteration step plus recursion for the `while escape_chars:` loop
of `PythonTemplater._slice_template`, consuming the *reversed* tuple
list: each iteration does `first_char = escape_chars.pop()` — removing
the last tuple, i.e. the head of the reversed list — then yields an
optional leading literal slice and the doubled escape slice, advancing
`idx` and `in_idx` exactly as the source does.  Returns the yielded
slices together with the final `idx` and `in_idx`. -/
def sliceEscLoopRev (literal_text : String) :
    List (String × Int) → Int → Int → (List RawFileSlice × Int × Int)
  | [], idx, in_idx => ([], idx, in_idx)
  | first_char :: restRev, idx, in_idx =>
    let pre : List RawFileSlice :=
      if first_char.2 > idx then
        [⟨pyStrSlice literal_text ⟨idx, first_char.2⟩, "literal", in_idx⟩]
      else []
    let in_idx1 := if first_char.2 > idx then in_idx + (first_char.2 - idx) else in_idx
    let idx2 := first_char.2 + first_char.1.length
    let escRaw := pyStrSlice literal_text ⟨first_char.2, idx2⟩
    let esc : RawFileSlice := ⟨escRaw ++ escRaw, "escaped", in_idx1⟩
    let in_idx2 := in_idx1 + 2
    let r := sliceEscLoopRev literal_text restRev idx2 in_idx2
    (pre ++ esc :: r.1, r.2)

/-- The `while escape_chars:` loop on the tuple list in its original
order (`pop()` takes from the end, so the reversed list is processed
front to back). -/
def sliceEscLoop (literal_text : String) (escape_chars : List (String × Int))
    (idx in_idx : Int) : List RawFileSlice × Int × Int :=
  sliceEscLoopRev literal_text escape_chars.reverse idx in_idx

/-- Modelled from Python's documented `string.Formatter().parse`
semantics, restricted to the template syntax the slicer consumes: the
input is cut into `(literal_text, field_name)` tuples; an escaped double
brace ENDS the current literal chunk, which keeps the first brace of the
pair in reduced form and is yielded immediately with no field (so every
literal chunk carries at most one brace, always as its last character —
e.g. `a\x7b\x7bb\x7d\x7dc` parses to `a\x7b` / `b\x7d` / `c`); a
`\x7bname\x7d` field ends a tuple, with the field text taken verbatim up
to the closing brace (conversion/format-spec syntax inside a field is not
decomposed, and nested braces in a format spec are outside the modelled
syntax); a lone unescaped brace raises `ValueError`, as does an
unterminated field.  The `mode` argument is `none` while scanning literal
text and `some lit` while scanning a field name whose pending literal
text is `lit`. -/
def formatterParseGo : List Char → Option String → List Char →
    Except PyErr (List (String × Option String))
  | [], none, acc => .ok (if acc.isEmpty then [] else [(acc.asString, none)])
  | [], some _, _ =>
    .error (.valueError "unterminated replacement field")
  | [c], none, acc =>
    if c = lbrace then .error (.valueError "single opening brace in format string")
    else if c = rbrace then .error (.valueError "single closing brace in format string")
    else formatterParseGo [] none (acc ++ [c])
  | c :: c2 :: cs2, none, acc =>
    if c = lbrace then
      if c2 = lbrace then
        match formatterParseGo cs2 none [] with
        | .ok rest => .ok (((acc ++ [lbrace]).asString, none) :: rest)
        | .error e => .error e
      else formatterParseGo (c2 :: cs2) (some acc.asString) []
    else if c = rbrace then
      if c2 = rbrace then
        match formatterParseGo cs2 none [] with
        | .ok rest => .ok (((acc ++ [rbrace]).asString, none) :: rest)
        | .error e => .error e
      else .error (.valueError "single closing brace in format string")
    else
      formatterParseGo (c2 :: cs2) none (acc ++ [c])
  | c :: cs, some lit, facc =>
    if c = rbrace then
      match formatterParseGo cs none [] with
      | .ok rest => .ok ((lit, some facc.asString) :: rest)
      | .error e => .error e
    else
      formatterParseGo cs (some lit) (facc ++ [c])

/-- Embedding of the body of `PythonTemplater._slice_template`: for each
formatter tuple, process the literal text (escape loop plus trailing
literal), then the field (Python checks `if field_name:` — the empty
field name is falsy), threading `in_idx`. -/
def sliceTemplateGo : List (String × Option String) → Int → List RawFileSlice
  | [], _ => []
  | (literal_text, field) :: rest, in_idx =>
    let r :=
      if literal_text ≠ "" then
        let escape_chars := sortedOccurrenceTuples
          (substringOccurrences literal_text [rbraceStr, lbraceStr])
        sliceEscLoop literal_text escape_chars 0 in_idx
      else ([], 0, in_idx)
    let pre := r.1
    let idxAfter := r.2.1
    let in_idx1 := r.2.2
    let tail_raw := pyStrSliceFrom literal_text idxAfter
    let pre2 :=
      if literal_text ≠ "" ∧ tail_raw ≠ "" then
        pre ++ [⟨tail_raw, "literal", in_idx1⟩]
      else pre
    let in_idx2 :=
      if literal_text ≠ "" ∧ tail_raw ≠ "" then
        in_idx1 + ((literal_text.length : Int) - idxAfter)
      else in_idx1
    match field with
    | some fname =>
      if fname ≠ "" then
        let constructed_token := lbraceStr ++ fname ++ rbraceStr
        (pre2 ++ [⟨constructed_token, "templated", in_idx2⟩]) ++
          sliceTemplateGo rest (in_idx2 + constructed_token.length)
      else
        pre2 ++ sliceTemplateGo rest in_idx2
    | none => pre2 ++ sliceTemplateGo rest in_idx2

/-- The formatter tokenisation of a whole string. -/
def formatterParse (s : String) : Except PyErr (List (String × Option String)) :=
  formatterParseGo s.toList none []

/-- Embedding of `PythonTemplater._slice_template` (a `ValueError` from
the formatter tokenisation propagates out of the generator). -/
def sliceTemplate (in_str : String) : Except PyErr (List RawFileSlice) :=
  match formatterParse in_str with
  | .ok tuples => .ok (sliceTemplateGo tuples 0)
  | .error e => .error e

/-! ## C3 — PythonTemplater._slice_template tiling -/

/-- Concatenated raw text of a slice list, in yield order. -/
def rawConcat : List RawFileSlice → String
  | [] => ""
  | a :: t => a.raw ++ rawConcat t

/-- Each slice's source offset equals `off` plus the total raw length of
the slices before it. -/
def offsetsOk : List RawFileSlice → Int → Bool
  | [], _ => true
  | a :: t, off => (a.source_idx == off) && offsetsOk t (off + (a.raw.length : Int))

/-- The template `\x7b\x7d` — a replacement field with an empty name. -/
def exEmptyField : String := "\x7b\x7d"

/-- The template `a\x7b\x7bb\x7d\x7dc` — the escape-carrying example
named in the claim. -/
def exC3 : String := "a\x7b\x7bb\x7d\x7dc"

theorem asString_append (l1 l2 : List Char) :
    (l1 ++ l2).asString = l1.asString ++ l2.asString := rfl

theorem asString_empty_iff (l : List Char) : l.asString = "" ↔ l = [] := by
  rw [List.asString_eq]
  simp

/-- `pyStrSlice` on in-range bounds is the corresponding drop/take. -/
theorem pyStrSlice_spec (l : List Char) (a b : Int) (ha : 0 ≤ a) (hab : a ≤ b)
    (hb : b ≤ (l.length : Int)) :
    pyStrSlice l.asString ⟨a, b⟩ = ((l.drop a.toNat).take (b - a).toNat).asString := by
  have hna : ¬ a < 0 := not_lt.mpr ha
  have hnb : ¬ b < 0 := not_lt.mpr (le_trans ha hab)
  unfold pyStrSlice
  simp only [List.toList_asString, List.length_asString, hna, if_false, hnb]
  rw [min_eq_right (le_trans hab hb), max_eq_right ha, min_eq_right hb,
    max_eq_right (le_trans ha hab)]
  by_cases h : a < b
  · simp [h]
  · have hba : a = b := le_antisymm hab (not_lt.mp h)
    subst hba
    rw [if_neg h]
    simp only [sub_self, Int.toNat_zero, List.take_zero]
    rfl

theorem pyStrSlice_take (l : List Char) (k : Nat) (hk : k ≤ l.length) :
    pyStrSlice l.asString ⟨0, (k : Int)⟩ = (l.take k).asString := by
  rw [pyStrSlice_spec l 0 k (le_refl 0) (by exact_mod_cast Nat.zero_le k)
    (by exact_mod_cast hk)]
  simp

theorem strFindallAux_not_mem (b : Char) :
    ∀ (l : List Char), b ∉ l → ∀ (pos : Int) (skip : Nat),
      strFindallAux [b] l pos skip = [] := by
  intro l
  induction l with
  | nil => intro _ pos skip; rfl
  | cons c rest ih =>
    intro h pos skip
    have hne : b ≠ c := fun he => h (he ▸ List.mem_cons_self _ _)
    have hrest : b ∉ rest := fun hm => h (List.mem_cons_of_mem _ hm)
    cases skip with
    | succ k =>
      simp only [strFindallAux]
      exact ih hrest (pos + 1) k
    | zero =>
      simp only [strFindallAux, List.isPrefixOf, beq_eq_false_iff_ne.mpr hne,
        Bool.false_and, Bool.false_eq_true, if_false]
      exact ih hrest (pos + 1) 0

theorem strFindallAux_last (b : Char) :
    ∀ (acc : List Char), b ∉ acc → ∀ (pos : Int),
      strFindallAux [b] (acc ++ [b]) pos 0 = [pos + (acc.length : Int)] := by
  intro acc
  induction acc with
  | nil =>
    intro _ pos
    simp [strFindallAux, List.isPrefixOf]
  | cons c acc' ih =>
    intro h pos
    have hne : b ≠ c := fun he => h (he ▸ List.mem_cons_self _ _)
    have hrest : b ∉ acc' := fun hm => h (List.mem_cons_of_mem _ hm)
    simp only [List.cons_append, strFindallAux, List.isPrefixOf,
      beq_eq_false_iff_ne.mpr hne, Bool.false_and, Bool.false_eq_true, if_false,
      List.append_eq]
    rw [ih hrest (pos + 1)]
    congr 1
    simp only [List.length_cons]
    push_cast
    ring_nf

theorem strFindall_single_not_mem (b : Char) (l : List Char) (h : b ∉ l) :
    strFindall [b].asString l.asString = [] := by
  unfold strFindall
  rw [show ([b].asString).toList = [b] from rfl, List.toList_asString]
  simp only [List.isEmpty_cons, Bool.false_eq_true, if_false]
  exact strFindallAux_not_mem b l h 0 0

theorem strFindall_single_last (b : Char) (acc : List Char) (h : b ∉ acc) :
    strFindall [b].asString (acc ++ [b]).asString = [(acc.length : Int)] := by
  unfold strFindall
  rw [show ([b].asString).toList = [b] from rfl, List.toList_asString]
  simp only [List.isEmpty_cons, Bool.false_eq_true, if_false]
  rw [strFindallAux_last b acc h 0]
  simp

theorem occ_nobrace (acc : List Char) (h1 : lbrace ∉ acc) (h2 : rbrace ∉ acc) :
    sortedOccurrenceTuples
      (substringOccurrences acc.asString [rbraceStr, lbraceStr]) = [] := by
  unfold substringOccurrences sortedOccurrenceTuples
  rw [show rbraceStr = [rbrace].asString from rfl,
    show lbraceStr = [lbrace].asString from rfl]
  rw [List.map_cons, List.map_cons, List.map_nil,
    strFindall_single_not_mem rbrace acc h2,
    strFindall_single_not_mem lbrace acc h1]
  rfl

theorem occ_last (b : Char) (hb : b = lbrace ∨ b = rbrace) (acc : List Char)
    (h1 : lbrace ∉ acc) (h2 : rbrace ∉ acc) :
    sortedOccurrenceTuples
        (substringOccurrences (acc ++ [b]).asString [rbraceStr, lbraceStr]) =
      [([b].asString, (acc.length : Int))] := by
  unfold substringOccurrences sortedOccurrenceTuples
  rw [show rbraceStr = [rbrace].asString from rfl,
    show lbraceStr = [lbrace].asString from rfl]
  rcases hb with rfl | rfl
  · have h2' : rbrace ∉ acc ++ [lbrace] := by
      simp only [List.mem_append, List.mem_singleton]
      rintro (hc | hc)
      · exact h2 hc
      · exact absurd hc (by decide)
    rw [List.map_cons, List.map_cons, List.map_nil,
      strFindall_single_not_mem rbrace (acc ++ [lbrace]) h2',
      strFindall_single_last lbrace acc h1]
    simp [List.insertionSort, List.orderedInsert]
  · have h1' : lbrace ∉ acc ++ [rbrace] := by
      simp only [List.mem_append, List.mem_singleton]
      rintro (hc | hc)
      · exact h1 hc
      · exact absurd hc (by decide)
    rw [List.map_cons, List.map_cons, List.map_nil,
      strFindall_single_last rbrace acc h2,
      strFindall_single_not_mem lbrace (acc ++ [rbrace]) h1']
    simp [List.insertionSort, List.orderedInsert]

theorem pyStrSliceFrom_all (l : List Char) :
    pyStrSliceFrom l.asString 0 = l.asString := by
  unfold pyStrSliceFrom
  simp only [List.length_asString]
  rw [pyStrSlice_take l l.length (le_refl _), List.take_length]

theorem pyStrSliceFrom_end (l : List Char) :
    pyStrSliceFrom l.asString (l.length : Int) = "" := by
  unfold pyStrSliceFrom
  simp only [List.length_asString]
  rw [pyStrSlice_spec l l.length l.length (by exact_mod_cast Nat.zero_le _)
    (le_refl _) (le_refl _)]
  simp only [sub_self, Int.toNat_zero, List.take_zero]
  rfl

/-- Processing one brace-free literal chunk: a single literal slice (when
non-empty) followed by the field slice (when the field name is
non-empty), advancing `in_idx` by exactly the covered source length. -/
theorem stg_step_nobrace (acc : List Char) (h1 : lbrace ∉ acc) (h2 : rbrace ∉ acc)
    (f : Option String) (rest : List (String × Option String)) (in_idx : Int) :
    sliceTemplateGo ((acc.asString, f) :: rest) in_idx =
      (if acc.isEmpty then ([] : List RawFileSlice)
        else [⟨acc.asString, "literal", in_idx⟩]) ++
      (match f with
        | some fname =>
          if fname ≠ "" then
            [⟨lbraceStr ++ fname ++ rbraceStr, "templated",
              in_idx + (acc.length : Int)⟩] ++
            sliceTemplateGo rest
              (in_idx + (acc.length : Int) + ((fname.length : Int) + 2))
          else sliceTemplateGo rest (in_idx + (acc.length : Int))
        | none => sliceTemplateGo rest (in_idx + (acc.length : Int))) := by
  by_cases hacc : acc = []
  · subst hacc
    simp only [sliceTemplateGo, show ([] : List Char).asString = "" from rfl]
    simp only [ne_eq, not_true_eq_false, false_and, if_false, ite_false,
      show pyStrSliceFrom "" 0 = "" from rfl]
    cases f with
    | none => simp
    | some fname =>
      by_cases hf : fname = ""
      · simp [hf]
      · simp only [hf, ne_eq, not_false_eq_true, if_true, List.isEmpty_nil,
          ite_true, List.nil_append, List.length_nil, Nat.cast_zero, add_zero,
          List.cons_append, List.singleton_append]
        congr 2
        simp only [String.length_append,
          show lbraceStr.length = 1 from rfl, show rbraceStr.length = 1 from rfl]
        push_cast
        ring_nf
  · have hne : acc.asString ≠ "" := by
      rw [Ne, asString_empty_iff]
      exact hacc
    have hocc := occ_nobrace acc h1 h2
    have hall := pyStrSliceFrom_all acc
    simp only [sliceTemplateGo, hocc, if_pos hne, sliceEscLoop, List.reverse_nil,
      sliceEscLoopRev, hall]
    simp only [if_pos (And.intro hne hne), List.nil_append, List.length_asString,
      sub_zero, List.isEmpty_eq_true, hacc, if_false]
    cases f with
    | none => simp
    | some fname =>
      by_cases hf : fname = ""
      · simp [hf]
      · simp [hf, String.length_append, lbraceStr, rbraceStr]
        congr 1
        simp only [show ("\x7b" : String).length = 1 from rfl,
          show ("\x7d" : String).length = 1 from rfl]
        push_cast
        ring_nf

/-- Processing one escape-terminated literal chunk (a brace-free prefix
plus the reduced brace as last character, as the formatter yields them):
an optional literal slice for the prefix, then the doubled escape slice,
advancing `in_idx` by the prefix length plus two. -/
theorem stg_step_escape (acc : List Char) (b : Char) (hb : b = lbrace ∨ b = rbrace)
    (h1 : lbrace ∉ acc) (h2 : rbrace ∉ acc)
    (rest : List (String × Option String)) (in_idx : Int) :
    sliceTemplateGo (((acc ++ [b]).asString, none) :: rest) in_idx =
      (if acc.isEmpty then ([] : List RawFileSlice)
        else [⟨acc.asString, "literal", in_idx⟩]) ++
      ([⟨[b].asString ++ [b].asString, "escaped", in_idx + (acc.length : Int)⟩] ++
        sliceTemplateGo rest (in_idx + (acc.length : Int) + 2)) := by
  have hlitne : (acc ++ [b]).asString ≠ "" := by
    rw [Ne, asString_empty_iff]
    simp
  have hocc := occ_last b hb acc h1 h2
  have hb1 : (([b]).asString).length = 1 := by simp
  have e1 : pyStrSlice ((acc ++ [b]).asString) ⟨0, (acc.length : Int)⟩ =
      acc.asString := by
    rw [pyStrSlice_take (acc ++ [b]) acc.length (by simp), List.take_left]
  have e2 : pyStrSlice ((acc ++ [b]).asString)
      ⟨(acc.length : Int), (acc.length : Int) + 1⟩ = [b].asString := by
    rw [pyStrSlice_spec (acc ++ [b]) acc.length ((acc.length : Int) + 1)
      (by exact_mod_cast Nat.zero_le _) (by omega) (by simp)]
    congr 1
    have hd : (acc ++ [b]).drop ((acc.length : Int)).toNat = [b] := by
      simp [List.drop_left]
    rw [hd]
    have ht : ((acc.length : Int) + 1 - (acc.length : Int)).toNat = 1 := by omega
    rw [ht]
    rfl
  have e3 : pyStrSliceFrom ((acc ++ [b]).asString) ((acc.length : Int) + 1) = "" := by
    have h := pyStrSliceFrom_end (acc ++ [b])
    rw [List.length_append, List.length_singleton] at h
    push_cast at h
    exact h
  simp only [sliceTemplateGo, if_pos hlitne, hocc, sliceEscLoop, List.reverse_cons,
    List.reverse_nil, List.nil_append, sliceEscLoopRev, hb1, e2]
  by_cases hacc : acc = []
  · subst hacc
    simp only [List.length_nil, Nat.cast_zero, gt_iff_lt, lt_irrefl, if_false,
      ite_false, zero_add, List.nil_append]
    have e2' : pyStrSlice ([b].asString) ⟨0, 1⟩ = [b].asString := by
      simpa using e2
    have e3' : pyStrSliceFrom ([b].asString) 1 = "" := by
      simpa using e3
    simp [e2', e3']
  · have hpos : (0 : Int) < (acc.length : Int) := by
      exact_mod_cast List.length_pos.mpr hacc
    simp only [gt_iff_lt, hpos, if_true, ite_true, sub_zero, zero_add, e1]
    simp [e2, e3, hacc]

theorem rawConcat_append (l1 l2 : List RawFileSlice) :
    rawConcat (l1 ++ l2) = rawConcat l1 ++ rawConcat l2 := by
  induction l1 with
  | nil =>
    simp only [List.nil_append, rawConcat]
    exact (String.empty_append _).symm
  | cons a t ih =>
    simp only [List.cons_append, rawConcat, List.append_eq, ih, String.append_assoc]

theorem offsetsOk_append (l1 l2 : List RawFileSlice) (off : Int) :
    offsetsOk (l1 ++ l2) off =
      (offsetsOk l1 off && offsetsOk l2 (off + ((rawConcat l1).length : Int))) := by
  induction l1 generalizing off with
  | nil =>
    simp only [List.nil_append, offsetsOk, Bool.true_and, rawConcat]
    norm_num
  | cons a t ih =>
    simp only [List.cons_append, offsetsOk, List.append_eq]
    rw [ih]
    simp only [rawConcat, String.length_append, Bool.and_assoc]
    congr 2
    push_cast
    ring_nf

theorem tiles_nil_none (acc : List Char) (in_idx : Int)
    (tuples : List (String × Option String))
    (h1 : lbrace ∉ acc) (h2 : rbrace ∉ acc)
    (hok : formatterParseGo [] none acc = .ok tuples) :
    offsetsOk (sliceTemplateGo tuples in_idx) in_idx = true ∧
      rawConcat (sliceTemplateGo tuples in_idx) = acc.asString := by
  simp only [formatterParseGo, Except.ok.injEq] at hok
  by_cases hacc : acc = []
  · subst hacc
    simp only [List.isEmpty_nil, if_true, ite_true] at hok
    subst hok
    exact ⟨rfl, rfl⟩
  · rw [if_neg (by simpa using hacc)] at hok
    subst hok
    rw [stg_step_nobrace acc h1 h2 none [] in_idx]
    simp only [List.isEmpty_eq_true, hacc, if_false, ite_false,
      List.singleton_append]
    constructor
    · simp [offsetsOk, sliceTemplateGo]
    · simp [rawConcat, sliceTemplateGo]

theorem rawConcat_litIf (acc : List Char) (in_idx : Int) :
    rawConcat (if acc.isEmpty then ([] : List RawFileSlice)
      else [⟨acc.asString, "literal", in_idx⟩]) = acc.asString := by
  by_cases hacc : acc = []
  · subst hacc
    rfl
  · simp [hacc, rawConcat]

theorem offsetsOk_litIf (acc : List Char) (in_idx : Int) :
    offsetsOk (if acc.isEmpty then ([] : List RawFileSlice)
      else [⟨acc.asString, "literal", in_idx⟩]) in_idx = true := by
  by_cases hacc : acc = [] <;> simp [hacc, offsetsOk]

/-- The tiling invariant, by induction over the formatter scan: from any
scanner state the slices produced for the remaining tuples are
consecutively offset and reconstruct the pending-plus-remaining source
text — in literal mode `acc ++ cs`, in field mode
`lit ++ \x7b ++ facc ++ cs` — provided every field name is non-empty. -/
theorem formatter_tiles :
    ∀ (n : Nat) (cs : List Char), cs.length ≤ n →
      ((∀ (acc : List Char) (in_idx : Int)
          (tuples : List (String × Option String)),
        lbrace ∉ acc → rbrace ∉ acc →
        formatterParseGo cs none acc = .ok tuples →
        (∀ t ∈ tuples, t.2 ≠ some "") →
        offsetsOk (sliceTemplateGo tuples in_idx) in_idx = true ∧
          rawConcat (sliceTemplateGo tuples in_idx) =
            acc.asString ++ cs.asString) ∧
      (∀ (lit facc : List Char) (in_idx : Int)
          (tuples : List (String × Option String)),
        lbrace ∉ lit → rbrace ∉ lit →
        formatterParseGo cs (some lit.asString) facc = .ok tuples →
        (∀ t ∈ tuples, t.2 ≠ some "") →
        offsetsOk (sliceTemplateGo tuples in_idx) in_idx = true ∧
          rawConcat (sliceTemplateGo tuples in_idx) =
            lit.asString ++ lbraceStr ++ facc.asString ++ cs.asString)) := by
  intro n
  induction n with
  | zero =>
    intro cs hcs
    have hnil : cs = [] := List.eq_nil_of_length_eq_zero (Nat.le_zero.mp hcs)
    subst hnil
    constructor
    · intro acc in_idx tuples h1 h2 hok _
      have h := tiles_nil_none acc in_idx tuples h1 h2 hok
      refine ⟨h.1, ?_⟩
      rw [h.2, show ([] : List Char).asString = "" from rfl, String.append_empty]
    · intro lit facc in_idx tuples _ _ hok _
      simp [formatterParseGo] at hok
  | succ n ih =>
    intro cs hcs
    cases cs with
    | nil =>
      constructor
      · intro acc in_idx tuples h1 h2 hok _
        have h := tiles_nil_none acc in_idx tuples h1 h2 hok
        refine ⟨h.1, ?_⟩
        rw [h.2, show ([] : List Char).asString = "" from rfl, String.append_empty]
      · intro lit facc in_idx tuples _ _ hok _
        simp [formatterParseGo] at hok
    | cons c cs' =>
      have hlen' : cs'.length ≤ n := by
        simp only [List.length_cons] at hcs
        omega
      constructor
      · intro acc in_idx tuples h1 h2 hok hfields
        cases cs' with
        | nil =>
          simp only [formatterParseGo] at hok
          by_cases hc1 : c = lbrace
          · rw [if_pos hc1] at hok
            simp at hok
          · rw [if_neg hc1] at hok
            by_cases hc2 : c = rbrace
            · rw [if_pos hc2] at hok
              simp at hok
            · rw [if_neg hc2] at hok
              have h1' : lbrace ∉ acc ++ [c] := by
                simp only [List.mem_append, List.mem_singleton]
                rintro (h | h)
                · exact h1 h
                · exact hc1 h.symm
              have h2' : rbrace ∉ acc ++ [c] := by
                simp only [List.mem_append, List.mem_singleton]
                rintro (h | h)
                · exact h2 h
                · exact hc2 h.symm
              have h := tiles_nil_none (acc ++ [c]) in_idx tuples h1' h2' hok
              refine ⟨h.1, ?_⟩
              rw [h.2, asString_append]
        | cons c2 cs2 =>
          have hlen2 : cs2.length ≤ n := by
            simp only [List.length_cons] at hcs
            omega
          simp only [formatterParseGo] at hok
          by_cases hc1 : c = lbrace
          · rw [if_pos hc1] at hok
            by_cases hc2 : c2 = lbrace
            · -- escaped double opening brace
              rw [if_pos hc2] at hok
              cases hrec : formatterParseGo cs2 none [] with
              | error e =>
                rw [hrec] at hok
                simp at hok
              | ok rest =>
                rw [hrec] at hok
                simp only [Except.ok.injEq] at hok
                subst hok
                subst hc1
                subst hc2
                rw [stg_step_escape acc lbrace (Or.inl rfl) h1 h2 rest in_idx]
                have IH := (ih cs2 hlen2).1 []
                  (in_idx + (acc.length : Int) + 2) rest (by simp) (by simp) hrec
                  (fun t ht => hfields t (List.mem_cons_of_mem _ ht))
                obtain ⟨IH1, IH2⟩ := IH
                constructor
                · rw [offsetsOk_append, offsetsOk_litIf, rawConcat_litIf]
                  simp only [Bool.true_and, offsetsOk, List.length_asString,
                    String.length_append, List.length_singleton, beq_self_eq_true,
                    Bool.and_eq_true, beq_iff_eq]
                  convert IH1 using 2
                · rw [rawConcat_append, rawConcat_litIf, rawConcat_append, IH2,
                    show ([] : List Char).asString = "" from rfl,
                    String.empty_append,
                    show (lbrace :: lbrace :: cs2) = [lbrace] ++ ([lbrace] ++ cs2)
                      from rfl,
                    asString_append, asString_append]
                  simp [rawConcat, String.append_assoc, String.append_empty]
            · -- field entry
              rw [if_neg hc2] at hok
              subst hc1
              have hok' : formatterParseGo (c2 :: cs2) (some acc.asString) [] =
                  .ok tuples := by
                simp only [formatterParseGo]
                exact hok
              have IH := (ih (c2 :: cs2) hlen').2 acc [] in_idx tuples h1 h2
                hok' hfields
              refine ⟨IH.1, ?_⟩
              rw [IH.2, show (lbrace :: c2 :: cs2) = [lbrace] ++ (c2 :: cs2)
                from rfl, asString_append,
                show ([] : List Char).asString = "" from rfl,
                String.append_empty]
              simp only [String.append_assoc,
                show [lbrace].asString = lbraceStr from rfl]
          · rw [if_neg hc1] at hok
            by_cases hc2 : c = rbrace
            · rw [if_pos hc2] at hok
              by_cases hc3 : c2 = rbrace
              · -- escaped double closing brace
                rw [if_pos hc3] at hok
                cases hrec : formatterParseGo cs2 none [] with
                | error e =>
                  rw [hrec] at hok
                  simp at hok
                | ok rest =>
                  rw [hrec] at hok
                  simp only [Except.ok.injEq] at hok
                  subst hok
                  subst hc2
                  subst hc3
                  rw [stg_step_escape acc rbrace (Or.inr rfl) h1 h2 rest in_idx]
                  have IH := (ih cs2 hlen2).1 []
                    (in_idx + (acc.length : Int) + 2) rest (by simp) (by simp)
                    hrec (fun t ht => hfields t (List.mem_cons_of_mem _ ht))
                  obtain ⟨IH1, IH2⟩ := IH
                  constructor
                  · rw [offsetsOk_append, offsetsOk_litIf, rawConcat_litIf]
                    simp only [Bool.true_and, offsetsOk, List.length_asString,
                      String.length_append, List.length_singleton,
                      beq_self_eq_true, Bool.and_eq_true, beq_iff_eq]
                    convert IH1 using 2
                  · rw [rawConcat_append, rawConcat_litIf, rawConcat_append,
                      IH2,
                      show ([] : List Char).asString = "" from rfl,
                      String.empty_append,
                      show (rbrace :: rbrace :: cs2) =
                        [rbrace] ++ ([rbrace] ++ cs2) from rfl,
                      asString_append, asString_append]
                    simp [rawConcat, String.append_assoc, String.append_empty]
              · rw [if_neg hc3] at hok
                simp at hok
            · rw [if_neg hc2] at hok
              have h1' : lbrace ∉ acc ++ [c] := by
                simp only [List.mem_append, List.mem_singleton]
                rintro (h | h)
                · exact h1 h
                · exact hc1 h.symm
              have h2' : rbrace ∉ acc ++ [c] := by
                simp only [List.mem_append, List.mem_singleton]
                rintro (h | h)
                · exact h2 h
                · exact hc2 h.symm
              have IH := (ih (c2 :: cs2) hlen').1 (acc ++ [c]) in_idx tuples h1'
                h2' hok hfields
              refine ⟨IH.1, ?_⟩
              rw [IH.2, asString_append,
                show (c :: c2 :: cs2) = [c] ++ (c2 :: cs2) from rfl,
                asString_append, String.append_assoc]
      · intro lit facc in_idx tuples h1 h2 hok hfields
        simp only [formatterParseGo] at hok
        by_cases hc : c = rbrace
        · rw [if_pos hc] at hok
          cases hrec : formatterParseGo cs' none [] with
          | error e =>
            rw [hrec] at hok
            simp at hok
          | ok rest =>
            rw [hrec] at hok
            simp only [Except.ok.injEq] at hok
            subst hok
            subst hc
            have hfne : facc.asString ≠ "" := by
              have h := hfields _ (List.mem_cons_self _ _)
              simpa using h
            rw [stg_step_nobrace lit h1 h2 (some facc.asString) rest in_idx]
            have IH := (ih cs' hlen').1 []
              (in_idx + (lit.length : Int) + ((facc.asString.length : Int) + 2))
              rest (by simp) (by simp) hrec
              (fun t ht => hfields t (List.mem_cons_of_mem _ ht))
            obtain ⟨IH1, IH2⟩ := IH
            simp only [ne_eq, hfne, not_false_eq_true, if_true, ite_true]
            constructor
            · rw [offsetsOk_append, offsetsOk_litIf, rawConcat_litIf]
              simp only [Bool.true_and, offsetsOk, List.length_asString,
                String.length_append, beq_self_eq_true, Bool.and_eq_true,
                beq_iff_eq, show lbraceStr.length = 1 from rfl,
                show rbraceStr.length = 1 from rfl]
              convert IH1 using 2
              simp only [List.length_asString]
              push_cast
              ring_nf
            · rw [rawConcat_append, rawConcat_litIf, rawConcat_append, IH2,
                show ([] : List Char).asString = "" from rfl,
                String.empty_append,
                show (rbrace :: cs') = [rbrace] ++ cs' from rfl,
                asString_append]
              simp [rawConcat, String.append_assoc, String.append_empty,
                show [rbrace].asString = rbraceStr from rfl]
        · rw [if_neg hc] at hok
          have IH := (ih cs' hlen').2 lit (facc ++ [c]) in_idx tuples h1 h2 hok
            hfields
          refine ⟨IH.1, ?_⟩
          rw [IH.2, asString_append,
            show (c :: cs') = [c] ++ cs' from rfl, asString_append]
          simp [String.append_assoc]

/-- Modelled from the spec: a position marker pairs a source slice with a
templated slice (`markers.py` is not among the sources); `literal` is the
marker's "maps to an untemplated span" classification used by
`is_literal()`. -/
structure PosMarker where
  source_slice : PySlice
  templated_slice : PySlice
  literal : Bool
deriving DecidableEq, Repr

/-- Modelled from the spec: `is_literal()` — whether the marker maps to an
untemplated span. -/
def PosMarker.is_literal (pm : PosMarker) : Bool := pm.literal

/-- Modelled from the spec: `is_point()` — a zero-width marker (both
slices empty). -/
def PosMarker.is_point (pm : PosMarker) : Bool :=
  pm.source_slice.start == pm.source_slice.stop &&
    pm.templated_slice.start == pm.templated_slice.stop

/-- Modelled from the spec: an explicit source fix attached to a segment
("pre-resolved edits bypassing structural comparison"): the replacement
text and the source/templated regions it applies to. -/
structure SourceFix where
  edit : String
  source_slice : PySlice
  templated_slice : PySlice
deriving DecidableEq, Repr

/-- A parse-tree segment as consumed by patch generation: raw text,
position marker, type tag, attached source fixes and children.  (The
source asserts `segment.pos_marker`; markers are therefore modelled as
always present.) -/
inductive LSeg where
  | mk (raw : String) (pos_marker : PosMarker) (seg_type : String)
      (source_fixes : List SourceFix) (segments : List LSeg)

def LSeg.raw : LSeg → String
  | .mk r _ _ _ _ => r

def LSeg.pos_marker : LSeg → PosMarker
  | .mk _ p _ _ _ => p

def LSeg.seg_type : LSeg → String
  | .mk _ _ t _ _ => t

def LSeg.source_fixes : LSeg → List SourceFix
  | .mk _ _ _ f _ => f

def LSeg.segments : LSeg → List LSeg
  | .mk _ _ _ _ s => s

/-- Embedding of the `FixPatch` dataclass. -/
structure FixPatch where
  templated_slice : PySlice
  fixed_raw : String
  patch_category : String
  source_slice : PySlice
  templated_str : String
  source_str : String
deriving DecidableEq, Repr

/-- Embedding of `FixPatch.dedupe_tuple`. -/
def FixPatch.dedupe_tuple (p : FixPatch) : PySlice × String :=
  (p.source_slice, p.fixed_raw)

/-- Modelled from the spec: the `TemplatedFile` surface the patch
generator consumes — the source and templated strings plus the
`raw_slices_spanning_source_slice` lookup (an abstract, read-only
collaborator). -/
structure TemplatedFileM where
  source_str : String
  templated_str : String
  raw_slices_spanning_source_slice : PySlice → List RawFileSlice

/-- Embedding of `_iter_source_fix_patches`: iterates
`reversed(segment.source_fixes)` (the reversal is in the source) and
builds a `FixPatch` per fix — with `patch_category="templated"` and the
`templated_str`/`source_str` lookups indexed by the *other* space's slice,
as the source does. -/
def iterSourceFixPatches (tf : TemplatedFileM) (segment : LSeg) : List FixPatch :=
  segment.source_fixes.reverse.map (fun source_fix =>
    { templated_slice := source_fix.templated_slice
      fixed_raw := source_fix.edit
      patch_category := "templated"
      source_slice := source_fix.source_slice
      templated_str := pyStrSlice tf.templated_str source_fix.source_slice
      source_str := pyStrSlice tf.source_str source_fix.templated_slice })

/-- `segment.is_type("end_of_file", "indent")`. -/
def LSeg.isEndType (s : LSeg) : Bool :=
  s.seg_type == "end_of_file" || s.seg_type == "indent"

/-- The `while segments and segments[-1].is_type("end_of_file", "indent"):
segments = segments[:-1]` trimming loop: drop the trailing run of
end-of-file/indent segments. -/
def trimEndSegs : List LSeg → List LSeg
  | [] => []
  | a :: rest =>
    let r := trimEndSegs rest
    if r.isEmpty then (if a.isEndType then [] else [a]) else a :: r

theorem sizeOf_list_pos (l : List LSeg) : 1 ≤ sizeOf l := by
  cases l <;> simp only [List.nil.sizeOf_spec, List.cons.sizeOf_spec] <;> omega

theorem trimEndSegs_sizeOf_le (l : List LSeg) : sizeOf (trimEndSegs l) ≤ sizeOf l := by
  induction l with
  | nil => simp [trimEndSegs]
  | cons a rest ih =>
    have h1 := sizeOf_list_pos rest
    simp only [trimEndSegs]
    split
    · split
      · simp only [List.nil.sizeOf_spec, List.cons.sizeOf_spec]
        omega
      · simp only [List.nil.sizeOf_spec, List.cons.sizeOf_spec]
        omega
    · simp only [List.cons.sizeOf_spec]
      omega

/-- The mutable state of the child loop in `_iter_templated_patches`:
`source_idx`, `templated_idx`, `insert_buff` and `first_segment_pos`. -/
structure PatchLoopState where
  source_idx : Int
  templated_idx : Int
  insert_buff : String
  first_segment_pos : Option PosMarker
deriving Repr

mutual

/-- Embedding of `_iter_templated_patches`.  The comparison
`matches = segment.raw != templated_raw` is as in the source (negated
relative to its own "Changed Segment Found" logging); the literal branch
yields the source fixes plus a `"non_literal"` replacement patch; the
children branch trims trailing end-of-file/indent segments and starts the
loop state at `source_slice.stop` / `templated_slice.start` with an
insert buffer of `" "`, as the source does; the trailing branch emits the
`"end_marker"` patch from `source_idx + 1` with the
`templated_str`/`source_str` caches swapped, as the source does. -/
def iterTemplatedPatches (tf : TemplatedFileM) : LSeg → List FixPatch
  | .mk raw pm ty fixes children =>
    let segment : LSeg := .mk raw pm ty fixes children
    let templated_raw := pyStrSlice tf.templated_str pm.templated_slice
    let matchesFlag := raw ≠ templated_raw
    if matchesFlag then
      iterSourceFixPatches tf segment
    else if pm.is_literal then
      iterSourceFixPatches tf segment ++
        [{ source_slice := pm.source_slice
           templated_slice := pm.templated_slice
           patch_category := "non_literal"
           fixed_raw := raw
           templated_str := pyStrSlice tf.templated_str pm.templated_slice
           source_str := pyStrSlice tf.source_str pm.source_slice }]
    else if !children.isEmpty then
      let segs := trimEndSegs children
      let st0 : PatchLoopState := ⟨pm.source_slice.stop, pm.templated_slice.start, " ", none⟩
      let r := patchChildLoop tf segs st0
      let st := r.2
      let end_diff := pm.templated_slice.stop - st.templated_idx
      if end_diff ≠ 0 ∨ st.insert_buff ≠ "" then
        let source_slice : PySlice := ⟨st.source_idx + 1, pm.source_slice.stop⟩
        let templated_slice : PySlice := ⟨st.templated_idx, pm.templated_slice.stop⟩
        r.1 ++
          [{ source_slice := source_slice
             templated_slice := templated_slice
             patch_category := "end_marker"
             fixed_raw := st.insert_buff
             templated_str := pyStrSlice tf.source_str templated_slice
             source_str := pyStrSlice tf.templated_str source_slice }]
      else r.1
    else []
  termination_by seg => sizeOf seg
  decreasing_by
    exact lt_of_le_of_lt (trimEndSegs_sizeOf_le _)
      (by simp only [LSeg.mk.sizeOf_spec]; omega)

/-- The `for seg in segments:` loop of `_iter_templated_patches`:
zero-width segments with raw text are buffered (the source *overwrites*
`first_segment_pos` here), a discontinuity patch is emitted when
`start_diff > 1` or the insert buffer is non-empty, then the child is
recursed into and the indices advance to its slice stops. -/
def patchChildLoop (tf : TemplatedFileM) :
    List LSeg → PatchLoopState → (List FixPatch × PatchLoopState)
  | [], st => ([], st)
  | seg :: rest, st =>
    let pm := seg.pos_marker
    if seg.raw ≠ "" ∧ pm.is_point then
      patchChildLoop tf rest
        { st with insert_buff := st.insert_buff ++ seg.raw, first_segment_pos := some pm }
    else
      let start_diff := pm.templated_slice.start - st.templated_idx
      let emit := start_diff > 1 ∨ st.insert_buff ≠ ""
      let pre : List FixPatch :=
        if emit then
          let fsp := st.first_segment_pos.getD pm
          [{ source_slice := ⟨st.source_idx, fsp.source_slice.start⟩
             templated_slice := ⟨st.templated_idx, fsp.templated_slice.stop⟩
             patch_category := "discontinuity"
             fixed_raw := st.insert_buff
             templated_str := ""
             source_str := "" }]
        else []
      let st1 := if emit then { st with first_segment_pos := none, insert_buff := "" } else st
      let inner := iterTemplatedPatches tf seg
      let st2 := { st1 with
        source_idx := pm.source_slice.stop
        templated_idx := pm.templated_slice.stop }
      let r := patchChildLoop tf rest st2
      (pre ++ inner ++ r.1, r.2)
  termination_by l _ => sizeOf l
  decreasing_by
    · simp only [List.cons.sizeOf_spec]
      omega
    · simp only [List.cons.sizeOf_spec]
      omega
    · simp only [List.cons.sizeOf_spec]
      omega

end

/-- Embedding of the per-patch filter decision of
`generate_source_patches`: keep when the overlapped raw-slice types are
absent or all `"literal"`, keep explicit `"source"`-category patches, keep
zero-length insertions exactly on a raw-slice boundary, and otherwise drop
(the warn-and-skip branch). -/
def keepPatch (tf : TemplatedFileM) (patch : FixPatch) : Bool :=
  let local_raw_slices := tf.raw_slices_spanning_source_slice patch.source_slice
  let local_type_list := local_raw_slices.map (fun slc => slc.slice_type)
  -- `not local_type_list or set(local_type_list) == {"literal"}`
  if local_type_list.isEmpty ||
      (!local_type_list.isEmpty && local_type_list.all (fun t => t == "literal")) then
    true
  else if patch.patch_category == "source" then
    true
  -- zero length patch starting exactly at the first overlapped raw slice
  -- (`local_raw_slices` is non-empty on this branch, so `head?` is `some`)
  else if (patch.source_slice.start == patch.source_slice.stop) &&
      ((local_raw_slices.head?.map (fun s => s.source_idx)) ==
        some patch.source_slice.start) then
    true
  else
    false

/-- Embedding of the dedupe-and-filter loop of `generate_source_patches`:
patches whose `dedupe_tuple` is already in `dedupe_buffer` are skipped;
kept patches are appended to the buffer; dropped patches are not. -/
def filterDedupe (tf : TemplatedFileM) :
    List FixPatch → List (PySlice × String) → List FixPatch
  | [], _ => []
  | patch :: rest, dedupe_buffer =>
    if patch.dedupe_tuple ∈ dedupe_buffer then
      filterDedupe tf rest dedupe_buffer
    else if keepPatch tf patch then
      patch :: filterDedupe tf rest (dedupe_buffer ++ [patch.dedupe_tuple])
    else
      filterDedupe tf rest dedupe_buffer

/-- The sort key relation of the final
`sorted(filtered_source_patches, key=lambda x: x.source_slice.start)`. -/
def patchLE (a b : FixPatch) : Prop :=
  a.source_slice.start ≤ b.source_slice.start

instance : DecidableRel patchLE := fun a b => by
  unfold patchLE
  infer_instance

instance : IsTotal FixPatch patchLE :=
  ⟨fun a b => Int.le_total a.source_slice.start b.source_slice.start⟩

instance : IsTrans FixPatch patchLE :=
  ⟨fun _ _ _ h1 h2 => le_trans h1 h2⟩

/-- The dedupe-filter-sort stage of `generate_source_patches` as a
function of the incoming patch stream.  Python's `sorted` is a stable
sort; `insertionSort` over the total key relation `patchLE` is the stable
sort of the same list. -/
def dedupeFilterSort (tf : TemplatedFileM) (patches : List FixPatch) : List FixPatch :=
  List.insertionSort patchLE (filterDedupe tf patches [])

/-- Embedding of `generate_source_patches`: iterate the templated
patches, dedupe and filter them, then sort by `source_slice.start`. -/
def generate_source_patches (tf : TemplatedFileM) (tree : LSeg) : List FixPatch :=
  dedupeFilterSort tf (iterTemplatedPatches tf tree)

/-! ## C8 — unchanged segments in `_iter_templated_patches` -/

/-- A templated file whose source and templated strings are both `x`. -/
def tfC8 : TemplatedFileM := ⟨"x", "x", fun _ => []⟩

/-- A leaf literal segment whose raw text `x` equals the templated text at
its templated slice, with no attached source fixes. -/
def segC8 : LSeg := .mk "x" ⟨⟨0, 1⟩, ⟨0, 1⟩, true⟩ "raw" [] []

/-- C8: the claim says a segment whose raw text equals the templated text
at its templated slice yields only its attached source fixes (none here).
The source computes `matches = segment.raw != templated_raw`, so the
*unchanged* segment falls through to the changed-segment logic and — being
literal — yields a replacement patch.  On `segC8` the code yields exactly
one `"non_literal"` patch where the claim requires the empty list. -/
theorem iterTemplatedPatches_c8_eval :
    iterTemplatedPatches tfC8 segC8 =
      [{ templated_slice := ⟨0, 1⟩, fixed_raw := "x",
         patch_category := "non_literal", source_slice := ⟨0, 1⟩,
         templated_str := "x", source_str := "x" }] ∧
      ([({ templated_slice := ⟨0, 1⟩, fixed_raw := "x",
           patch_category := "non_literal", source_slice := ⟨0, 1⟩,
           templated_str := "x", source_str := "x" } : FixPatch)] : List FixPatch) ≠ [] := by
  constructor
  · simp only [segC8, iterTemplatedPatches]
    decide
  · decide

/-! ## C9 — dedupe / sort properties of `generate_source_patches` -/

/-- Every patch surviving the dedupe-filter loop passed the keep test and
its dedupe tuple was not already buffered. -/
theorem mem_filterDedupe {tf : TemplatedFileM} {l : List FixPatch}
    {buf : List (PySlice × String)} {q : FixPatch}
    (h : q ∈ filterDedupe tf l buf) :
    keepPatch tf q = true ∧ q.dedupe_tuple ∉ buf := by
  induction l generalizing buf with
  | nil => simp [filterDedupe] at h
  | cons p rest ih =>
    simp only [filterDedupe] at h
    by_cases hd : p.dedupe_tuple ∈ buf
    · rw [if_pos hd] at h
      exact ih h
    · rw [if_neg hd] at h
      by_cases hk : keepPatch tf p
      · rw [if_pos hk] at h
        rcases List.mem_cons.mp h with rfl | hq
        · exact ⟨hk, hd⟩
        · have h2 := ih hq
          refine ⟨h2.1, fun hc => h2.2 ?_⟩
          simp only [List.mem_append]
          exact Or.inl hc
      · rw [if_neg hk] at h
        exact ih h

/-- The dedupe-filter loop never emits two patches with the same dedupe
tuple. -/
theorem pairwise_filterDedupe (tf : TemplatedFileM) (l : List FixPatch)
    (buf : List (PySlice × String)) :
    (filterDedupe tf l buf).Pairwise
      (fun a b => a.dedupe_tuple ≠ b.dedupe_tuple) := by
  induction l generalizing buf with
  | nil => simp [filterDedupe]
  | cons p rest ih =>
    simp only [filterDedupe]
    by_cases hd : p.dedupe_tuple ∈ buf
    · rw [if_pos hd]
      exact ih buf
    · rw [if_neg hd]
      by_cases hk : keepPatch tf p
      · rw [if_pos hk]
        refine List.Pairwise.cons ?_ (ih _)
        intro q hq hne
        have h2 := mem_filterDedupe hq
        exact h2.2 (by simp [← hne])
      · rw [if_neg hk]
        exact ih buf

/-- On a list of all-keepable patches with pairwise-distinct dedupe tuples
none of which are buffered, the dedupe-filter loop is the identity. -/
theorem filterDedupe_id (tf : TemplatedFileM) :
    ∀ (l : List FixPatch) (buf : List (PySlice × String)),
      (∀ p ∈ l, keepPatch tf p = true) →
      l.Pairwise (fun a b => a.dedupe_tuple ≠ b.dedupe_tuple) →
      (∀ p ∈ l, p.dedupe_tuple ∉ buf) →
      filterDedupe tf l buf = l := by
  intro l
  induction l with
  | nil =>
    intro buf _ _ _
    simp [filterDedupe]
  | cons p rest ih =>
    intro buf hkeep hpw hbuf
    simp only [filterDedupe]
    rw [if_neg (hbuf p (List.mem_cons_self p rest)),
      if_pos (hkeep p (List.mem_cons_self p rest))]
    congr 1
    refine ih (buf ++ [p.dedupe_tuple])
      (fun q hq => hkeep q (List.mem_cons_of_mem p hq)) hpw.of_cons ?_
    intro q hq
    simp only [List.mem_append, List.mem_singleton]
    rintro (hc | hc)
    · exact hbuf q (List.mem_cons_of_mem p hq) hc
    · exact (List.rel_of_pairwise_cons hpw hq) hc.symm

/-- Stability of `orderedInsert` on the sort key: restricting to the
patches with any fixed `source_slice.start` preserves the original
order. -/
theorem filter_orderedInsert_key (k : Int) (a : FixPatch) :
    ∀ l : List FixPatch,
      (List.orderedInsert patchLE a l).filter
          (fun p => p.source_slice.start == k) =
        ((a :: l).filter (fun p => p.source_slice.start == k)) := by
  intro l
  induction l with
  | nil => simp [List.orderedInsert]
  | cons b t ih =>
    simp only [List.orderedInsert]
    by_cases hr : patchLE a b
    · rw [if_pos hr]
    · rw [if_neg hr]
      have hlt : b.source_slice.start < a.source_slice.start := by
        unfold patchLE at hr
        omega
      by_cases ha : a.source_slice.start = k
      · have hb : (b.source_slice.start == k) = false := by
          simp only [beq_eq_false_iff_ne, ne_eq]
          omega
        simp only [List.filter_cons, hb, Bool.false_eq_true, if_false, ih,
          ha, beq_self_eq_true, if_true]
      · have ha2 : (a.source_slice.start == k) = false := by
          simp only [beq_eq_false_iff_ne, ne_eq]
          exact ha
        simp only [List.filter_cons, ha2, Bool.false_eq_true, if_false, ih]

/-- Stability of the final sort on the sort key. -/
theorem filter_insertionSort_key (k : Int) :
    ∀ l : List FixPatch,
      (List.insertionSort patchLE l).filter
          (fun p => p.source_slice.start == k) =
        l.filter (fun p => p.source_slice.start == k) := by
  intro l
  induction l with
  | nil => rfl
  | cons a t ih =>
    simp only [List.insertionSort]
    rw [filter_orderedInsert_key, List.filter_cons, List.filter_cons, ih]

/-- C9: the list returned by `generate_source_patches` has pairwise
distinct `(source_slice, fixed_raw)` dedupe tuples, is sorted ascending by
`source_slice.start`, is stable for equal starts (restricting to any fixed
start value gives exactly the filtered patches with that start, in their
generation order), and re-applying the dedupe-filter-sort stage to the
output returns it unchanged. -/
theorem generate_source_patches_c9 (tf : TemplatedFileM) (tree : LSeg) :
    (generate_source_patches tf tree).Pairwise
        (fun a b => a.dedupe_tuple ≠ b.dedupe_tuple) ∧
      (generate_source_patches tf tree).Pairwise patchLE ∧
      (∀ k : Int,
        (generate_source_patches tf tree).filter
            (fun p => p.source_slice.start == k) =
          (filterDedupe tf (iterTemplatedPatches tf tree) []).filter
            (fun p => p.source_slice.start == k)) ∧
      dedupeFilterSort tf (generate_source_patches tf tree) =
        generate_source_patches tf tree := by
  have hsym : ∀ {x y : FixPatch},
      x.dedupe_tuple ≠ y.dedupe_tuple → y.dedupe_tuple ≠ x.dedupe_tuple :=
    fun h => h.symm
  have hperm :
      List.Perm
        (List.insertionSort patchLE
          (filterDedupe tf (iterTemplatedPatches tf tree) []))
        (filterDedupe tf (iterTemplatedPatches tf tree) []) :=
    List.perm_insertionSort _ _
  have hpwf := pairwise_filterDedupe tf (iterTemplatedPatches tf tree) []
  have hout1 : (generate_source_patches tf tree).Pairwise
      (fun a b => a.dedupe_tuple ≠ b.dedupe_tuple) :=
    (hperm.pairwise_iff hsym).mpr hpwf
  have hsorted : (generate_source_patches tf tree).Pairwise patchLE :=
    List.sorted_insertionSort patchLE
      (filterDedupe tf (iterTemplatedPatches tf tree) [])
  refine ⟨hout1, hsorted, fun k => filter_insertionSort_key k _, ?_⟩
  have hid : filterDedupe tf (generate_source_patches tf tree) [] =
      generate_source_patches tf tree := by
    refine filterDedupe_id tf _ [] ?_ hout1 ?_
    · intro p hp
      have hpf : p ∈ filterDedupe tf (iterTemplatedPatches tf tree) [] :=
        hperm.mem_iff.mp hp
      exact (mem_filterDedupe hpf).1
    · intro p _
      simp
  show List.insertionSort patchLE
      (filterDedupe tf (generate_source_patches tf tree) []) =
    generate_source_patches tf tree
  rw [hid]
  exact List.Sorted.insertionSort_eq hsorted

/-! ### Shared match algorithms (modelled from the spec, §4.3) -/

/-- Modelled from the spec: `skip_start_index_forward_to_code` — advance
an index past non-code tokens: the first index in `[start_idx, max_idx)`
holding a code segment, else `max_idx`. -/
def skipStartForward (segments : List Segment) (start_idx max_idx : Int) : Int :=
  match (intRange start_idx max_idx).find?
      (fun i => (pyGetSeg segments i).is_code) with
  | some i => i
  | none => max_idx

/-- Modelled from the spec: `skip_stop_index_backward_to_code` — retreat
an index past non-code tokens: the first index descending from `stop_idx`
(above `min_idx`) whose preceding segment is code, else `min_idx`. -/
def skipStopBackward (segments : List Segment) (stop_idx min_idx : Int) : Int :=
  match (intRangeDesc stop_idx min_idx).find?
      (fun i => (pyGetSeg segments (i - 1)).is_code) with
  | some i => i
  | none => min_idx

/-- Modelled from the spec: `trim_to_terminator` — the greedy upper
bound: the earliest position at or after `idx` at which any active
terminator matches, defaulting to end-of-input if none match. -/
def trimToTerminator (segments : List Segment) (idx : Int)
    (terminators : List Matcher) : Int :=
  match (intRange idx segments.length).find?
      (fun i => terminators.any (fun t => (t.matchFn segments i).truthy)) with
  | some i => i
  | none => segments.length

/-! ### Sequence (`core/parser/grammar/sequence.py`) -/

/-- Parse modes supported by `Sequence`. -/
inductive ParseMode where
  | strict
  | greedy
  | greedy_once_started
deriving DecidableEq, Repr

/-- An element of a `Sequence` grammar: a `Conditional` (contributing only
insertions), a raw meta class (`issubclass(elem, Indent)`), or an
ordinary matchable. -/
inductive SeqElem where
  | conditional (matchFn : List Segment → Int → MatchResult)
  | indent (meta : MetaType)
  | matcher (m : Matcher)

/-- A `Sequence` grammar instance: its elements and the constructor
configuration used by `match`. -/
structure SeqGrammar where
  elements : List SeqElem
  allow_gaps : Bool
  parse_mode : ParseMode
  terminators : List Matcher

/-- Embedding of `_flush_metas` (`sequence.py`): position pending metas
relative to the non-code span `[pre_nc_idx, post_nc_idx)`, anchoring on
`block_end`/`block_start` placeholder segments exactly as the source's
two `for`/`else` loops do. -/
def flushMetas (pre_nc_idx post_nc_idx : Int) (meta_buffer : List MetaType)
    (segments : List Segment) : List (Int × MetaType) :=
  let meta_idx :=
    if meta_buffer.all (fun m => 0 ≤ m.indent_val) then
      match (intRangeDesc post_nc_idx pre_nc_idx).find?
          (fun i => (pyGetSeg segments (i - 1)).seg_type == "placeholder") with
      | some i =>
        if (pyGetSeg segments (i - 1)).block_type == "block_end" then i
        else pre_nc_idx
      | none => pre_nc_idx
    else
      match (intRange pre_nc_idx post_nc_idx).find?
          (fun i => (pyGetSeg segments i).seg_type == "placeholder") with
      | some i =>
        if (pyGetSeg segments i).block_type == "block_start" then i
        else post_nc_idx
      | none => post_nc_idx
  meta_buffer.map (fun m => (meta_idx, m))

/-- The expected-message text of the run-out failure branch. -/
def expectedNothingMsg (segments : List Segment) (elemId : Nat)
    (matched_idx : Int) : String :=
  "matcher-" ++ toString elemId ++ " after " ++
    (pyGetSeg segments (matched_idx - 1)).raw ++ ". Found nothing."

/-- The expected-message text of the failed-first-element branch. -/
def expectedStartMsg (segments : List Segment) (elemId : Nat) (i : Int) : String :=
  "matcher-" ++ toString elemId ++ " to start sequence. Found " ++
    (pyGetSeg segments i).raw

/-- The expected-message text of the failed-later-element branch. -/
def expectedAfterMsg (segments : List Segment) (elemId : Nat)
    (matched_idx i : Int) : String :=
  "matcher-" ++ toString elemId ++ " after " ++
    (pyGetSeg segments (matched_idx - 1)).raw ++ ". Found " ++
    (pyGetSeg segments i).raw

/-- Embedding of the element loop of `Sequence.match`.  The trailing
arguments are the loop state: remaining elements, `start_idx`,
`matched_idx`, `max_idx`, `insert_segments`, `child_matches`,
`first_match` and `meta_buffer`.  All index updates reproduce the source,
including `matched_idx = elem_match.matched_slice.stop + 1`, the
`slice(start_idx + 1, matched_idx)` wrap in the run-out branch, the
`(start_idx, meta)` anchoring of leftover metas, the
`slice(_idx + 1, _stop_idx)` / `matched_idx = _stop_idx + 1` greedy
mop-up, and the final `slice(start_idx, matched_idx - 2)`. -/
def seqLoop (g : SeqGrammar) (ctx : GCtx) (segments : List Segment) (idx : Int) :
    List SeqElem → Int → Int → Int → List (Int × MetaType) →
      List MatchResult → Bool → List MetaType → MatchResult
  | [], start_idx, matched_idx, max_idx, insert_segments, child_matches, _, meta_buffer =>
    let insert_segments :=
      insert_segments ++ meta_buffer.map (fun m => (start_idx, m))
    if g.parse_mode = .greedy ∨ g.parse_mode = .greedy_once_started then
      if max_idx > matched_idx then
        let _idx := skipStartForward segments matched_idx max_idx
        let _stop_idx := skipStopBackward segments max_idx _idx
        if _stop_idx > _idx then
          MatchResult.mk ⟨start_idx, (_stop_idx + 1) - 2⟩ none none insert_segments
            (child_matches ++
              [MatchResult.mk ⟨_idx + 1, _stop_idx⟩ (some "unparsable")
                (some "Nothing here.") [] []])
        else
          MatchResult.mk ⟨start_idx, matched_idx - 2⟩ none none insert_segments
            child_matches
      else
        MatchResult.mk ⟨start_idx, matched_idx - 2⟩ none none insert_segments
          child_matches
    else
      MatchResult.mk ⟨start_idx, matched_idx - 2⟩ none none insert_segments
        child_matches
  | .conditional f :: rest, start_idx, matched_idx, max_idx, insert_segments,
      child_matches, first_match, meta_buffer =>
    let _match := f segments matched_idx
    seqLoop g ctx segments idx rest start_idx matched_idx max_idx insert_segments
      child_matches first_match (meta_buffer ++ _match.insert_segments.map Prod.snd)
  | .indent mt :: rest, start_idx, matched_idx, max_idx, insert_segments,
      child_matches, first_match, meta_buffer =>
    seqLoop g ctx segments idx rest start_idx matched_idx max_idx insert_segments
      child_matches first_match (meta_buffer ++ [mt])
  | .matcher m :: rest, start_idx, matched_idx, max_idx, insert_segments,
      child_matches, first_match, meta_buffer =>
    let _idx :=
      if g.allow_gaps then skipStartForward segments matched_idx max_idx
      else matched_idx
    if _idx ≥ max_idx then
      if m.optional then
        seqLoop g ctx segments idx rest start_idx matched_idx max_idx
          insert_segments child_matches first_match meta_buffer
      else if g.parse_mode = .strict ∨ matched_idx = start_idx then
        MatchResult.empty_at idx
      else
        (MatchResult.mk ⟨start_idx + 1, matched_idx⟩ none none
            (insert_segments ++ meta_buffer.map (fun mm => (matched_idx, mm)))
            child_matches).wrap "unparsable"
          (some (expectedNothingMsg segments m.id matched_idx))
    else
      let elem_match := m.matchFn (segments.take max_idx.toNat) _idx
      if ¬ elem_match.truthy then
        if m.optional then
          seqLoop g ctx segments idx rest start_idx matched_idx max_idx
            insert_segments child_matches first_match meta_buffer
        else if g.parse_mode = .strict then
          MatchResult.empty_at idx
        else if g.parse_mode = .greedy_once_started ∧ matched_idx = start_idx then
          MatchResult.empty_at idx
        else if matched_idx = start_idx then
          MatchResult.mk ⟨start_idx, max_idx⟩ (some "unparsable")
            (some (expectedStartMsg segments m.id _idx)) [] []
        else
          let _start_idx := skipStartForward segments matched_idx max_idx
          MatchResult.mk ⟨start_idx, max_idx⟩ none none insert_segments
            (child_matches ++
              [MatchResult.mk ⟨_start_idx, max_idx⟩ (some "unparsable")
                (some (expectedAfterMsg segments m.id matched_idx _idx)) [] []])
      else
        let insert_segments2 :=
          insert_segments ++ flushMetas matched_idx _idx meta_buffer segments
        let matched_idx2 := elem_match.matched_slice.stop + 1
        let pair :=
          if first_match ∧ g.parse_mode = .greedy_once_started then
            (trimToTerminator segments matched_idx2
              (g.terminators ++ ctx.terminators), false)
          else (max_idx, first_match)
        if elem_match.matched_class.isSome then
          seqLoop g ctx segments idx rest start_idx matched_idx2 pair.1
            insert_segments2 (child_matches ++ [elem_match]) pair.2 []
        else
          seqLoop g ctx segments idx rest start_idx matched_idx2 pair.1
            (insert_segments2 ++ elem_match.insert_segments)
            (child_matches ++ elem_match.child_matches) pair.2 []

/-- Embedding of `Sequence.match`: initialise the loop state (in GREEDY
mode, first trim `max_idx` to the earliest active terminator) and run the
element loop. -/
def seqMatch (g : SeqGrammar) (segments : List Segment) (idx : Int)
    (parse_context : GCtx) : MatchResult :=
  let start_idx := idx
  let matched_idx := idx
  let max_idx : Int := segments.length
  let max_idx :=
    if g.parse_mode = .greedy then
      trimToTerminator segments idx (g.terminators ++ parse_context.terminators)
    else max_idx
  seqLoop g parse_context segments idx g.elements start_idx matched_idx max_idx
    [] [] true []

/-! ## C5 — Sequence.match in STRICT mode -/

/-- The typed no-match value is falsy. -/
theorem truthy_empty_at (i : Int) : (MatchResult.empty_at i).truthy = false := by
  simp [MatchResult.empty_at, MatchResult.truthy, MatchResult.matched_slice,
    MatchResult.insert_segments, MatchResult.child_matches]

/-- In STRICT mode, as long as a non-optional always-failing matcher
remains among the pending elements, the element loop necessarily returns
the empty match at the starting index: every early return in STRICT mode
is `empty_at idx`, and the failing element can be neither skipped nor
matched. -/
theorem seqLoop_strict (g : SeqGrammar) (ctx : GCtx) (segments : List Segment)
    (idx : Int) (m : Matcher) (hmode : g.parse_mode = .strict)
    (hopt : m.optional = false)
    (hfail : ∀ (segs : List Segment) (i : Int), (m.matchFn segs i).truthy = false) :
    ∀ (elems : List SeqElem) (start_idx matched_idx max_idx : Int)
      (ins : List (Int × MetaType)) (chs : List MatchResult) (fm : Bool)
      (mb : List MetaType),
      SeqElem.matcher m ∈ elems →
      seqLoop g ctx segments idx elems start_idx matched_idx max_idx ins chs fm mb =
        MatchResult.empty_at idx := by
  intro elems
  induction elems with
  | nil =>
    intro _ _ _ _ _ _ _ h
    exact absurd h (List.not_mem_nil _)
  | cons e rest ih =>
    intro start_idx matched_idx max_idx ins chs fm mb hmem
    cases e with
    | conditional f =>
      have hrest : SeqElem.matcher m ∈ rest := by
        rcases List.mem_cons.mp hmem with h | h
        · exact absurd h (by intro hh; cases hh)
        · exact h
      simp only [seqLoop]
      exact ih _ _ _ _ _ _ _ hrest
    | indent mt =>
      have hrest : SeqElem.matcher m ∈ rest := by
        rcases List.mem_cons.mp hmem with h | h
        · exact absurd h (by intro hh; cases hh)
        · exact h
      simp only [seqLoop]
      exact ih _ _ _ _ _ _ _ hrest
    | matcher mp =>
      rcases List.mem_cons.mp hmem with heq | hrest
      · -- the head element is the always-failing matcher itself
        cases heq
        simp [seqLoop, hmode, hopt, hfail]
      · -- the failing matcher sits further back; every branch either
        -- returns empty-at-start (STRICT early exits) or recurses
        simp only [seqLoop]
        split_ifs
        all_goals
          first
          | rfl
          | exact ih _ _ _ _ _ _ _ hrest
          | exact absurd hmode (by assumption)
          | exact absurd (Or.inl hmode) (by assumption)

/-- C5: in STRICT parse mode, whenever a non-optional element of the
sequence fails to match (here: a matcher whose match is falsy at every
position, which also covers failure by running out of input),
`Sequence.match` returns the empty `MatchResult` at the start index — no
partial credit. -/
theorem sequence_strict_failure (g : SeqGrammar) (segments : List Segment)
    (idx : Int) (ctx : GCtx) (m : Matcher)
    (hmode : g.parse_mode = .strict)
    (hmem : SeqElem.matcher m ∈ g.elements)
    (hopt : m.optional = false)
    (hfail : ∀ (segs : List Segment) (i : Int), (m.matchFn segs i).truthy = false) :
    seqMatch g segments idx ctx = MatchResult.empty_at idx := by
  have h := seqLoop_strict g ctx segments idx m hmode hopt hfail g.elements
    idx idx segments.length [] [] true [] hmem
  simp only [seqMatch, hmode]
  simpa using h

/-- The concrete matcher `A` of the witness (matches the token `A`). -/
def mAC5 : Matcher := rawMatcher 1 "A"

/-- The concrete matcher `B` of the witness: fails everywhere. -/
def mBC5 : Matcher := ⟨2, false, fun _ i => MatchResult.empty_at i⟩

/-- `Sequence(A, B)` in STRICT mode. -/
def gC5 : SeqGrammar := ⟨[.matcher mAC5, .matcher mBC5], true, .strict, []⟩

/-- The tokens `A B` (with the gap between them). -/
def segsC5 : List Segment := [codeSeg "A", wsSeg, codeSeg "B"]

/-- C5 witness: `Sequence(A, B)` in STRICT mode against `A B` where `B`
fails yields the empty match at the start index. -/
theorem sequence_strict_failure_witness :
    seqMatch gC5 segsC5 0 baseCtx = MatchResult.empty_at 0 :=
  sequence_strict_failure gC5 segsC5 0 baseCtx mBC5 rfl
    (by simp [gC5]) rfl (fun _ i => truthy_empty_at i)

/-! ### Bracketed (`core/parser/grammar/sequence.py`) -/

/-- Modelled from the spec: `is_zero_slice` — a slice with equal
endpoints. -/
def is_zero_slice (s : PySlice) : Bool := s.start == s.stop

/-- Modelled from the spec: the scan loop of `resolve_bracket` — walk
forward from the end of the opening match, incrementing the depth on
nested opens, decrementing it on closes, returning the covering match
when the depth returns to zero, and raising the fatal parse error when
the input ends unresolved.  The fuel argument bounds the scan (each step
advances the index by at least one, so the initial fuel makes exhaustion
unreachable). -/
def resolveBracketGo (segments : List Segment) (sl_start : Int)
    (start_brackets end_brackets : List Matcher) (persists : List Bool) :
    Nat → Int → Nat → Except PyErr MatchResult
  | 0, _, _ =>
    .error (.sqlParseError "Couldn't find closing bracket for opening bracket.")
  | fuel + 1, idx, depth =>
    if idx ≥ segments.length then
      .error (.sqlParseError "Couldn't find closing bracket for opening bracket.")
    else
      match start_brackets.find? (fun t => (t.matchFn segments idx).truthy) with
      | some t =>
        let sm := t.matchFn segments idx
        resolveBracketGo segments sl_start start_brackets end_brackets persists
          fuel (max (idx + 1) sm.matched_slice.stop) (depth + 1)
      | none =>
        match end_brackets.find? (fun t => (t.matchFn segments idx).truthy) with
        | some t =>
          let em := t.matchFn segments idx
          if depth = 1 then
            .ok (MatchResult.mk ⟨sl_start, em.matched_slice.stop⟩
              (if persists.getD 0 false then some "bracketed" else none) none [] [])
          else
            resolveBracketGo segments sl_start start_brackets end_brackets persists
              fuel (max (idx + 1) em.matched_slice.stop) (depth - 1)
        | none =>
          resolveBracketGo segments sl_start start_brackets end_brackets persists
            fuel (idx + 1) depth

/-- Modelled from the spec: `resolve_bracket` over an already matched
opening bracket (see `resolveBracketGo`). -/
def resolveBracket (segments : List Segment) (opening_match : MatchResult)
    (start_brackets end_brackets : List Matcher) (bracket_persists : List Bool) :
    Except PyErr MatchResult :=
  resolveBracketGo segments opening_match.matched_slice.start start_brackets
    end_brackets bracket_persists
    ((segments.length - opening_match.matched_slice.stop).toNat + 1)
    opening_match.matched_slice.stop 1

/-- A `Bracketed` grammar: the underlying `Sequence` configuration plus
the dialect-resolved bracket pair (the `get_bracket_from_dialect` lookup
is modelled by these pre-resolved fields) and its `persists` flag. -/
structure BracketedGrammar where
  seq : SeqGrammar
  start_bracket : Matcher
  end_bracket : Matcher
  persists : Bool

/-- Embedding of `Bracketed.match`.  As in the source: the *end* bracket
matcher is matched at `idx` as the "start" match; `resolve_bracket` is
invoked with the bracket roles swapped (`start_brackets=[end_bracket]`,
`end_brackets=[start_bracket]`); then `assert not bracketed_match`; the
content is matched as a sequence over `segments[:_end_idx]` from
`_idx + 1` inside a `deeper_match(clear_terminators=False,
push_terminators=[end_bracket])` scope; the empty-return guard tests
GREEDY mode and returns `empty_at(_idx)`; the gap wrap runs when
`allow_gaps or is_zero_slice(...)`. -/
def bracketedMatch (g : BracketedGrammar) (segments : List Segment) (idx : Int)
    (parse_context : GCtx) : Except PyErr MatchResult := do
  let start_bracket := g.start_bracket
  let end_bracket := g.end_bracket
  let bracket_persists := g.persists
  let start_match := end_bracket.matchFn segments idx
  if ¬ start_match.truthy then
    return MatchResult.empty_at idx
  let bracketed_match ← resolveBracket segments start_match
    [end_bracket] [start_bracket] [bracket_persists]
  if bracketed_match.truthy then
    throw (.assertionError "assert not bracketed_match")
  let _idx := start_match.matched_slice.stop
  let _end_idx := bracketed_match.matched_slice.stop + 1
  let p :=
    if ¬ g.seq.allow_gaps then
      let i2 := skipStartForward segments _idx segments.length
      (i2, skipStopBackward segments _end_idx i2)
    else (_idx, _end_idx)
  let _idx := p.1
  let _end_idx := p.2
  let ctx2 := (deeperMatchEnter parse_context "Bracketed" false
    (some [end_bracket]) none).1
  let content_match := seqMatch g.seq (segments.take _end_idx.toNat) (_idx + 1) ctx2
  if content_match.matched_slice.stop ≠ _end_idx ∧ g.seq.parse_mode = .greedy then
    return MatchResult.empty_at _idx
  let intermediate_slice : PySlice :=
    ⟨content_match.matched_slice.stop, bracketed_match.matched_slice.stop + 1⟩
  let content_match2 :=
    if g.seq.allow_gaps ∨ is_zero_slice intermediate_slice then
      content_match.prepend
        (MatchResult.mk intermediate_slice (some "unparsable") (some "elements") [] [])
    else content_match
  let _content_matches :=
    if content_match2.matched_class.isNone then
      bracketed_match.child_matches ++ [content_match2]
    else
      bracketed_match.child_matches ++ content_match2.child_matches
  return MatchResult.mk bracketed_match.matched_slice bracketed_match.matched_class
    bracketed_match.expected bracketed_match.insert_segments _content_matches

/-! ## C6 — Bracketed.match on a missing start bracket -/

/-- The round opening bracket matcher. -/
def sbC6 : Matcher := rawMatcher 11 "("

/-- The round closing bracket matcher. -/
def ebC6 : Matcher := rawMatcher 12 ")"

/-- `Bracketed()` over the round pair, STRICT, gaps allowed. -/
def gC6 : BracketedGrammar := ⟨⟨[], true, .strict, []⟩, sbC6, ebC6, true⟩

/-- C6: the claim says that when the configured start bracket does not
match at `idx`, `Bracketed.match` returns the empty match at `idx` and
never raises — including for input beginning with the *closing* bracket.
The source matches the end bracket as the opener, so on input `)` it
proceeds into bracket resolution and raises the fatal unresolved-bracket
parse error instead of returning the typed no-match.  (Input beginning
with a non-bracket token still gets the empty match, because the end
bracket fails there too.) -/
theorem bracketedMatch_c6_eval :
    bracketedMatch gC6 [codeSeg ")"] 0 baseCtx =
        .error (.sqlParseError "Couldn't find closing bracket for opening bracket.") ∧
      bracketedMatch gC6 [codeSeg "x"] 0 baseCtx = .ok (MatchResult.empty_at 0) ∧
      ∀ m : MatchResult,
        (Except.error
            (PyErr.sqlParseError "Couldn't find closing bracket for opening bracket.") :
          Except PyErr MatchResult) ≠ .ok m := by
  refine ⟨rfl, rfl, fun _ h => Except.noConfusion h⟩

/-! ### BaseFileSegment.root_parse (`core/parser/segments/file.py`) -/

/-- A parse-tree node in the file segment's content: a raw token, an
unparsable wrapper, or a class-wrapped span. -/
inductive Node where
  | raw (seg : Segment)
  | unparsable (children : List Node) (expected : String)
  | wrapped (cls : String) (children : List Node)

/-- The class-level attributes of the file segment class that
`root_parse` consults: whether the (deprecated) `parse_grammar` attribute
exists, and the root match grammar (a dialect root segment has a match
grammar and no `parse_grammar`). -/
structure FileClass where
  has_parse_grammar : Bool
  match_grammar : Option SeqGrammar

/-- The constructed file segment: its children and the file name it was
built with. -/
structure FileSeg where
  children : List Node
  fname : Option String

/-- Modelled from the spec: `MatchResult.apply` — materialise the match
over the segments, wrapping the covered span in the matched class when
one is set.  (Simplified: nested child structure is flattened to the
covered raw segments; every path traced by the theorems below errors
before reaching `apply`.) -/
def MatchResult.applyM (m : MatchResult) (segments : List Segment) : List Node :=
  match m.matched_class with
  | some cls => [.wrapped cls ((pySegSlice segments m.matched_slice).map .raw)]
  | none => (pySegSlice segments m.matched_slice).map .raw

/-- Embedding of `BaseFileSegment.root_parse`.  The two trim loops break
on `not ... is_code` (as the source does); the first assert demands that
`parse_grammar` *exists*, the second that `match_grammar` is *absent*;
`progress_bar` asserts `self._tqdm` is already set (`tqdm_set` models
that attribute, `None` on a fresh context); the grammar is then matched
over `segments[_end_idx:]`, leading unmatched *non-code* is wrapped as
unparsable while unmatched code is appended bare, and the result is
assembled as `segments[_start_idx:] + content + segments[:_end_idx]` —
all exactly as in the source. -/
def rootParse (cls : FileClass) (segments : List Segment) (parse_context : GCtx)
    (tqdm_set : Bool) (fname : Option String) : Except PyErr FileSeg := do
  let n : Int := segments.length
  let _start_idx ← pyForBreakE (intRange 0 n)
    (fun i => do
      let s ← pyGetSegE segments i
      return !s.is_code) 0
  let _end_idx ← pyForBreakE (intRangeDesc n (_start_idx - 1))
    (fun i => do
      let s ← pyGetSegE segments (i - 1)
      return !s.is_code) n
  if _start_idx = _end_idx then
    return ⟨segments.map Node.raw, none⟩
  if ¬ cls.has_parse_grammar then
    throw (.assertionError "`parse_grammar` is deprecated on FileSegment.")
  if cls.match_grammar.isSome then
    throw (.assertionError "assert not cls.match_grammar")
  -- `_final_seg = segments[-1]` (its position-marker assert is modelled
  -- as passing: lexed segments arrive positioned)
  let _final ← pyGetSegE segments (-1)
  if ¬ tqdm_set then
    throw (.assertionError "Expected progress bar to be initialized.")
  match cls.match_grammar with
  | none => throw (.attributeError "NoneType has no attribute match")
  | some grammar =>
    let mtch := seqMatch grammar (pySegSlice segments ⟨_end_idx, n⟩) _start_idx
      parse_context
    let _matched := mtch.applyM segments
    let _unmatched := pySegSlice segments ⟨mtch.matched_slice.stop, _end_idx⟩
    let content : List Node :=
      if ¬ mtch.truthy then
        [.unparsable ((pySegSlice segments ⟨_start_idx, _end_idx⟩).map .raw)
          "match_grammar"]
      else if ¬ _unmatched.isEmpty then
        let _idx := pyForBreak (intRange 0 _unmatched.length)
          (fun i => (pyGetSeg _unmatched i).is_code) 0
        _matched ++ (_unmatched.drop _idx.toNat).map .raw ++
          [.unparsable ((_unmatched.take _idx.toNat).map .raw)
            "Nothing else in FileSegment."]
      else
        _matched ++ _unmatched.map .raw
    return ⟨(pySegSlice segments ⟨_start_idx, n⟩).map .raw ++ content ++
      (pySegSlice segments ⟨0, _end_idx⟩).map .raw, fname⟩

/-! ## C2 — root_parse content assembly -/

/-- A dialect-style root file class: no deprecated `parse_grammar`, a
match grammar present. -/
def clsC2 : FileClass := ⟨false, some ⟨[], true, .strict, []⟩⟩

/-- C2: the claim says `root_parse` returns a file segment whose children
are leading non-code, matched content, unparsable-wrapped trailing code
and trailing non-code in original order, with the leaf raw text
round-tripping.  On the two-token input `␣ SELECT` the trim loops (which
break on *non-code*) leave a non-degenerate span and the very next
statement — `assert hasattr(cls, "parse_grammar")` — fails for a dialect
root class (the message itself says the attribute is deprecated), so the
call raises `AssertionError` instead of returning any file segment. -/
theorem rootParse_c2_eval :
    rootParse clsC2 [wsSeg, codeSeg "SELECT"] baseCtx false none =
        .error (.assertionError "`parse_grammar` is deprecated on FileSegment.") ∧
      ∀ fs : FileSeg,
        (Except.error
            (PyErr.assertionError "`parse_grammar` is deprecated on FileSegment.") :
          Except PyErr FileSeg) ≠ .ok fs := by
  refine ⟨rfl, fun _ h => Except.noConfusion h⟩

/-! ### Parser.parse (`core/parser/parser.py`) -/

mutual

/-- The raw text of a tree node (concatenated leaves). -/
def nodeRaw : Node → String
  | .raw s => s.raw
  | .unparsable cs _ => nodesRaw cs
  | .wrapped _ cs => nodesRaw cs

/-- The raw text of a node list (concatenated leaves). -/
def nodesRaw : List Node → String
  | [] => ""
  | n :: rest => nodeRaw n ++ nodesRaw rest

end

/-- Concatenated raw text of a segment sequence. -/
def joinRaw (segments : List Segment) : String :=
  segments.foldl (fun acc s => acc ++ s.raw) ""

/-- Modelled from the spec: `check_still_complete` — the round-trip
assertion comparing the concatenated raw text of the input segments with
that of the parsed output, raising when they differ. -/
def checkStillComplete (segments_in : List Segment) (root : FileSeg) :
    Except PyErr Bool :=
  if joinRaw segments_in = nodesRaw root.children then .ok true
  else .error (.runtimeError "Dropped elements in sequence matching")

/-- Embedding of `Parser.parse`, parameterised by the dialect's
`RootSegment.root_parse` (already applied to its context and file name):
the source calls it on `tuple(reversed(segments))`, then runs
`check_still_complete` against the original order, and falls through to
`return None`. -/
def parserParse (rootParseFn : List Segment → Except PyErr FileSeg)
    (segments : List Segment) : Except PyErr (Option FileSeg) := do
  let root ← rootParseFn segments.reverse
  let _ ← checkStillComplete segments root
  return none

/-! ## C1 — Parser.parse returns the parse tree -/

/-- A spec-conforming root parse: a file segment over the given segments
in the given order (raw text preserved). -/
def goodRootC1 : List Segment → Except PyErr FileSeg :=
  fun segs => .ok ⟨segs.map Node.raw, none⟩

/-- C1: the claim says `Parser.parse` returns the tree built by
`root_parse` over the segments in original order.  Even with a root parse
that preserves its input exactly, the source (a) reverses the segments
before handing them over — so with two distinct tokens the completeness
check fails with a `RuntimeError` — and (b) on inputs where the check
passes (a single token) falls through to `return None` instead of
returning the root. -/
theorem parserParse_c1_eval :
    parserParse goodRootC1 [codeSeg "a"] = .ok none ∧
      parserParse goodRootC1 [codeSeg "a", codeSeg "b"] =
        .error (.runtimeError "Dropped elements in sequence matching") ∧
      ∀ fs : FileSeg,
        (Except.ok none : Except PyErr (Option FileSeg)) ≠ .ok (some fs) := by
  refine ⟨rfl, rfl, fun _ h => Option.noConfusion (Except.ok.inj h)⟩

end Sqlfluff
